import Mathlib

/-!
# First-species counterpoint generator: embedding and verification

Shallow embedding of `FirstSpeciesCtrpt.cpp`.

* A `std::vector<int>` is a `List Int`.
* A `std::string` is a `List Char`, a key (`std::vector<std::string>`) a list of them.
* A `std::map<int, float>` (a Note Table, or a set of allowed notes) is the
  list of its keys in iteration order; the `float` frequencies are carried
  along by the program but never inspected, so they are left out.
* `int` arithmetic is `Int` arithmetic with C++ truncating `/` and `%`
  (`Int.tdiv`, `Int.tmod`); `size_t` arithmetic is `Nat` arithmetic modulo
  `2 ^ 64`.
* `rand()` is a stream `rnd : Nat → Nat` read at an explicit position.
* File output and console input are left out.
-/

namespace FirstSpeciesCtrpt

/-! ## Definitions -/

/-- Element `v.end()[-i]` of a vector (for `1 ≤ i ≤ v.size()`; outside that
range the C++ expression is undefined and the value here is arbitrary). -/
def endAt (v : List Int) (i : Nat) : Int := v.getD (v.length - i) 0

/-- Last element, `v.back()` (undefined in C++ on an empty vector). -/
def back (v : List Int) : Int := endAt v 1

/-- Unsigned subtraction `a - b` on `size_t`. -/
def sizeSub (a b : Nat) : Nat := (a + (2 ^ 64 - b)) % 2 ^ 64

/-- Removal of one key, `m.erase(key)` on a map. -/
def mapErase (m : List Int) (key : Int) : List Int := m.filter (fun k => k != key)

/-- Second loop of every filter: `for (auto it : removalList) m.erase(it)`. -/
def eraseAll (m removalList : List Int) : List Int := removalList.foldl mapErase m

/-- Source: `getInterval`. -/
def getInterval (note1 note2 : Int) : Int :=
  (((7 * (note1.tdiv 10) + note1.tmod 10) - (7 * (note2.tdiv 10) + note2.tmod 10)).natAbs : Int) + 1

/-- Recursion of `reduceInterval`, unrolled at most `fuel` times. -/
def reduceIntervalAux : Nat → Int → Int
  | 0, interval => interval
  | fuel + 1, interval => if interval ≤ 7 then interval else reduceIntervalAux fuel (interval - 7)

/-- Source: `reduceInterval`. The recursion subtracts 7 until the value is at
most 7, which takes fewer than `interval` steps. -/
def reduceInterval (interval : Int) : Int := reduceIntervalAux interval.toNat interval

/-- Source: `isConsonant`. -/
def isConsonant (interval : Int) : Bool :=
  reduceInterval interval == 1 || reduceInterval interval == 3 ||
    reduceInterval interval == 5 || reduceInterval interval == 6

/-- Source: `removeParallelFifths`. -/
def removeParallelFifths (allowedCtrptNotes ctrptNotes cantusNotes : List Int) : List Int :=
  if allowedCtrptNotes.length = 0 then allowedCtrptNotes
  else if reduceInterval (getInterval (back ctrptNotes)
      (cantusNotes.getD (ctrptNotes.length - 1) 0)) = 5 then
    eraseAll allowedCtrptNotes (allowedCtrptNotes.filter (fun k =>
      reduceInterval (getInterval k (cantusNotes.getD (ctrptNotes.length - 1) 0)) == 5))
  else allowedCtrptNotes

/-- Source: `removeParallelEighths`. -/
def removeParallelEighths (allowedCtrptNotes ctrptNotes cantusNotes : List Int) : List Int :=
  if allowedCtrptNotes.length = 0 then allowedCtrptNotes
  else if reduceInterval (getInterval (back ctrptNotes)
      (cantusNotes.getD (ctrptNotes.length - 1) 0)) = 1 then
    eraseAll allowedCtrptNotes (allowedCtrptNotes.filter (fun k =>
      reduceInterval (getInterval k (cantusNotes.getD (ctrptNotes.length - 1) 0)) == 1))
  else allowedCtrptNotes

/-- Source: `remove3xLeap`. -/
def remove3xLeap (allowedCtrptNotes ctrptNotes : List Int) : List Int :=
  if allowedCtrptNotes.length = 0 then allowedCtrptNotes
  else if 3 ≤ getInterval (back ctrptNotes) (endAt ctrptNotes 2) ∧
      3 ≤ getInterval (endAt ctrptNotes 2) (endAt ctrptNotes 3) then
    eraseAll allowedCtrptNotes (allowedCtrptNotes.filter (fun k =>
      decide (3 ≤ getInterval k (back ctrptNotes))))
  else allowedCtrptNotes

/-- Source: `removeOppositeLeaps`. -/
def removeOppositeLeaps (allowedCtrptNotes ctrptNotes : List Int) : List Int :=
  if allowedCtrptNotes.length = 0 then allowedCtrptNotes
  else if 3 ≤ getInterval (endAt ctrptNotes 1) (endAt ctrptNotes 2) then
    eraseAll allowedCtrptNotes (allowedCtrptNotes.filter (fun k =>
      decide (3 ≤ getInterval k (back ctrptNotes)) &&
        (decide (0 < k - back ctrptNotes) != decide (0 < endAt ctrptNotes 1 - endAt ctrptNotes 2))))
  else allowedCtrptNotes

/-- First half of `remove4xIntervalOrNote`: the same note three times. -/
def remove4xNote (allowedCtrptNotes ctrptNotes : List Int) : List Int :=
  if endAt ctrptNotes 1 = endAt ctrptNotes 2 ∧ endAt ctrptNotes 1 = endAt ctrptNotes 3 then
    mapErase allowedCtrptNotes (back ctrptNotes)
  else allowedCtrptNotes

/-- Source: `remove4xIntervalOrNote`. -/
def remove4xIntervalOrNote (allowedCtrptNotes ctrptNotes cantusNotes : List Int) : List Int :=
  if allowedCtrptNotes.length = 0 then allowedCtrptNotes
  else if getInterval (back ctrptNotes) (cantusNotes.getD (ctrptNotes.length - 1) 0) =
        getInterval (endAt ctrptNotes 2) (cantusNotes.getD (ctrptNotes.length - 1 - 1) 0) ∧
      getInterval (back ctrptNotes) (cantusNotes.getD (ctrptNotes.length - 1) 0) =
        getInterval (endAt ctrptNotes 3) (cantusNotes.getD (ctrptNotes.length - 1 - 2) 0) then
    eraseAll (remove4xNote allowedCtrptNotes ctrptNotes)
      ((remove4xNote allowedCtrptNotes ctrptNotes).filter (fun k =>
        getInterval k (cantusNotes.getD (ctrptNotes.length - 1) 0) ==
          getInterval (back ctrptNotes) (cantusNotes.getD (ctrptNotes.length - 1) 0)))
  else remove4xNote allowedCtrptNotes ctrptNotes

/-- First loop of the general case of `getAllowedCtrptNotes`: the notes that
pass the four tests made with `currIndex = ctrptNotes.size() - 1`. -/
def generalCandidates (ctrptNotes cantusNotes notes : List Int) : List Int :=
  notes.filter (fun k =>
    isConsonant (getInterval (cantusNotes.getD (ctrptNotes.length - 1) 0) k) &&
    decide (getInterval (cantusNotes.getD (ctrptNotes.length - 1) 0) k ≤ 12) &&
    decide (k < cantusNotes.getD (ctrptNotes.length - 1) 0) &&
    decide (getInterval (back ctrptNotes) k ≤ 6))

/-- Source: `getAllowedCtrptNotes`. -/
def getAllowedCtrptNotes (ctrptNotes cantusNotes notes : List Int) : List Int :=
  if ctrptNotes.length = 0 then
    notes.filter (fun k => k.tmod 10 == 1)
  else if ctrptNotes.length = sizeSub cantusNotes.length 2 then
    if (endAt cantusNotes 2).tmod 10 = 2 then notes.filter (fun k => k.tmod 10 == 7)
    else notes.filter (fun k => k.tmod 10 == 2)
  else if ctrptNotes.length = sizeSub cantusNotes.length 1 then
    notes.filter (fun k => k.tmod 10 == 1 && getInterval (back ctrptNotes) k == 2)
  else if ctrptNotes.length = 1 then
    removeParallelEighths
      (removeParallelFifths (generalCandidates ctrptNotes cantusNotes notes) ctrptNotes cantusNotes)
      ctrptNotes cantusNotes
  else if ctrptNotes.length = 2 then
    removeOppositeLeaps
      (removeParallelEighths
        (removeParallelFifths (generalCandidates ctrptNotes cantusNotes notes) ctrptNotes cantusNotes)
        ctrptNotes cantusNotes)
      ctrptNotes
  else
    remove4xIntervalOrNote
      (remove3xLeap
        (removeOppositeLeaps
          (removeParallelEighths
            (removeParallelFifths (generalCandidates ctrptNotes cantusNotes notes) ctrptNotes
              cantusNotes)
            ctrptNotes cantusNotes)
          ctrptNotes)
        ctrptNotes)
      ctrptNotes cantusNotes

/-- Source: `getAllowedCantusNotes`, with `prevNotes[0] = prev0` and
`prevNotes[1] = prev1`. -/
def getAllowedCantusNotes (notes : List Int) (prev0 prev1 noteNum totalNotes : Int) : List Int :=
  if noteNum = 1 then
    notes.filter (fun k => k.tmod 10 == 1)
  else if noteNum = totalNotes then
    notes.filter (fun k => getInterval prev0 k == 2 && k.tmod 10 == 1)
  else if noteNum = totalNotes - 1 then
    notes.filter (fun k => decide (getInterval prev0 k ≤ 6) && (k.tmod 10 == 2 || k.tmod 10 == 7))
  else if prev1 = -1 then
    notes.filter (fun k => decide (getInterval prev0 k ≤ 6))
  else if getInterval prev0 prev1 = 1 then
    notes.filter (fun k => decide (getInterval prev0 k ≤ 6) && getInterval prev0 k != 1)
  else if getInterval prev0 prev1 = 3 then
    notes.filter (fun k => decide (getInterval prev0 k ≤ 2))
  else if 4 ≤ getInterval prev0 prev1 then
    notes.filter (fun k =>
      (decide (0 < prev0 - prev1) && (getInterval prev0 k == 2 && decide (k - prev0 < 0))) ||
      (decide (prev0 - prev1 < 0) && (getInterval prev0 k == 2 && decide (0 < k - prev0))))
  else
    notes.filter (fun k => decide (getInterval prev0 k ≤ 6))

/-- Source: `randomNoteKey`, with `r` the value returned by `rand()`
(the C++ code divides by zero when `noteKeys` is empty). -/
def randomNoteKey (r : Nat) (noteKeys : List Int) : Int :=
  noteKeys.getD (r % noteKeys.length) 0

/-- The rejection loop `do noteKey = randomNoteKey(keys); while (visited.count(noteKey) != 0)`
of `backtrackFillCtrptMelody`, run for at most `fuel` draws from position `s`
of the random stream. Returns the accepted key and the next stream position,
or `none` when `fuel` draws were all rejected. -/
def drawUnvisited (rnd : Nat → Nat) (allowedNotesKeys visited : List Int) :
    Nat → Nat → Option (Int × Nat)
  | 0, _ => none
  | fuel + 1, s =>
    if visited.contains (randomNoteKey (rnd s) allowedNotesKeys) then
      drawUnvisited rnd allowedNotesKeys visited fuel (s + 1)
    else some (randomNoteKey (rnd s) allowedNotesKeys, s + 1)

/-- Outcome of one call of `backtrackFillCtrptMelody`: the returned vector,
the by-reference accumulator `ctrptNotes` as the call leaves it, and the
position reached in the random stream. -/
structure SearchResult where
  buffer : List Int
  ctrptNotes : List Int
  seed : Nat
  deriving DecidableEq

/-- The `while (visited.size() < allowedNotes.size())` loop of
`backtrackFillCtrptMelody` together with the failure exit after it. `recur`
is the recursive call, `n` bounds the number of iterations still permitted
(`none` means the bound was hit or a draw or recursive call did not return). -/
def tryNotes (recur : List Int → Nat → Option SearchResult) (rnd : Nat → Nat) (drawFuel : Nat)
    (allowedNotes : List Int) : Nat → List Int → List Int → Nat → Option SearchResult
  | 0, visited, ctrptNotes, s =>
    if visited.length < allowedNotes.length then none
    else some ⟨ctrptNotes ++ [-1], ctrptNotes ++ [-1], s⟩
  | n + 1, visited, ctrptNotes, s =>
    if visited.length < allowedNotes.length then
      match drawUnvisited rnd allowedNotes visited drawFuel s with
      | none => none
      | some (noteKey, s1) =>
        match recur (ctrptNotes ++ [noteKey]) s1 with
        | none => none
        | some r =>
          if back r.buffer ≠ -1 then some r
          else tryNotes recur rnd drawFuel allowedNotes n (noteKey :: visited)
            r.ctrptNotes.dropLast.dropLast r.seed
    else some ⟨ctrptNotes ++ [-1], ctrptNotes ++ [-1], s⟩

/-- Source: `backtrackFillCtrptMelody`. `depth` bounds the nesting of
recursive calls and `drawFuel` the length of each rejection loop; `none`
means that one of the bounds was hit. -/
def backtrackFillCtrptMelody (rnd : Nat → Nat) (drawFuel : Nat) (notes cantusNotes : List Int) :
    Nat → List Int → Nat → Option SearchResult
  | 0, _, _ => none
  | depth + 1, ctrptNotes, s =>
    if ctrptNotes.length = cantusNotes.length then some ⟨ctrptNotes, ctrptNotes, s⟩
    else if (getAllowedCtrptNotes ctrptNotes cantusNotes notes).length = 0 then
      some ⟨ctrptNotes ++ [-1], ctrptNotes ++ [-1], s⟩
    else
      tryNotes (backtrackFillCtrptMelody rnd drawFuel notes cantusNotes depth) rnd drawFuel
        (getAllowedCtrptNotes ctrptNotes cantusNotes notes)
        (getAllowedCtrptNotes ctrptNotes cantusNotes notes).length [] ctrptNotes s

/-- An Encoded Pitch, the kind of key a Note Table holds: non-negative, with a degree digit
in 1..7. -/
def ValidPitch (x : Int) : Prop := 0 ≤ x ∧ 1 ≤ x.tmod 10 ∧ x.tmod 10 ≤ 7

instance (x : Int) : Decidable (ValidPitch x) := by unfold ValidPitch; infer_instance

/-- The sequence `t` has the length of the cantus, starts with `p`, and every element after
`p` is a candidate that `getAllowedCtrptNotes` returns for the elements before it. -/
def Completes (cantusNotes notes p t : List Int) : Prop :=
  t.length = cantusNotes.length ∧ p <+: t ∧
    ∀ k, p.length ≤ k → k < t.length →
      t.getD k 0 ∈ getAllowedCtrptNotes (t.take k) cantusNotes notes

/-- What a returning call on the partial sequence `p` delivers: either a completion of `p`
whose last element is a pitch (returned and left in the accumulator), or `p` followed by one
-1 in both places, and then no completion of `p` exists. -/
def SearchSpec (cantusNotes notes p : List Int) (r : SearchResult) : Prop :=
  (back r.buffer ≠ -1 ∧ r.ctrptNotes = r.buffer ∧ Completes cantusNotes notes p r.buffer) ∨
  (r.buffer = p ++ [-1] ∧ r.ctrptNotes = p ++ [-1] ∧ ¬ ∃ t, Completes cantusNotes notes p t)

/-- Assumption on `rand()`: from every position on, every index of every list of at most
`bound` entries turns up again in the stream (`rand() % n` takes each value below `n`
again, for every `n ≤ bound`). -/
def FairRand (rnd : Nat → Nat) (bound : Nat) : Prop :=
  ∀ s n i : Nat, n ≤ bound → i < n → ∃ t, s ≤ t ∧ rnd t % n = i

/-- A stream that `rand()` can deliver: its values cycle through 0 .. `RAND_MAX`, with
`RAND_MAX` = 2147483647. -/
def cyclicRand : Nat → Nat := fun n => n % 2147483648

/-- Modelled from the spec: the frequency file read by `getNotes` is not among the sources.
These are the keys of the Note Table of the lower voice (range `TENOR`, 130.81 to 523.26 Hz,
C3 to C5) in the key of C with octave anchor 1. -/
def tenorC : List Int := [31, 32, 33, 34, 35, 36, 37, 41, 42, 43, 44, 45, 46, 47, 51]

/-- Modelled from the spec: the frequency file read by `getNotes` is not among the sources.
These are the keys of the Note Table of the upper voice (range `ALTO`, 196.00 to 698.47 Hz,
G3 to F5) in the key of C with octave anchor 1. -/
def altoC : List Int := [35, 36, 37, 41, 42, 43, 44, 45, 46, 47, 51, 52, 53, 54]

/-- Source: `calcTotalNotes`. -/
def calcTotalNotes (numMeasures : Int) : Int := 4 * numMeasures

/-- The `while (noteNum <= totalNotes)` loop of `writeCantusMelody`, without
the file output. `none` means that `randomNoteKey` was called on an empty
list (a division by zero in the C++ code) or that `fuel` iterations were not
enough. -/
def writeCantusLoop (rnd : Nat → Nat) (notes : List Int) (totalNotes : Int) :
    Nat → Int → Int → Int → List Int → Nat → Option (List Int × Nat)
  | 0, noteNum, _, _, cantusNotes, s =>
    if noteNum ≤ totalNotes then none else some (cantusNotes, s)
  | fuel + 1, noteNum, prev0, prev1, cantusNotes, s =>
    if noteNum ≤ totalNotes then
      if (getAllowedCantusNotes notes prev0 prev1 noteNum totalNotes).length = 0 then none
      else
        writeCantusLoop rnd notes totalNotes fuel (noteNum + 1)
          (randomNoteKey (rnd s) (getAllowedCantusNotes notes prev0 prev1 noteNum totalNotes))
          prev0
          (cantusNotes ++
            [randomNoteKey (rnd s) (getAllowedCantusNotes notes prev0 prev1 noteNum totalNotes)])
          (s + 1)
    else some (cantusNotes, s)

/-- Source: `writeCantusMelody`, with `notes` the Note Table of the upper
voice and `totalNotes` the value of `calcTotalNotes(numMeasures)`. The loop
runs `totalNotes` times, which is the fuel given to it. -/
def writeCantusMelody (rnd : Nat → Nat) (notes : List Int) (totalNotes : Int) (s : Nat) :
    Option (List Int × Nat) :=
  writeCantusLoop rnd notes totalNotes totalNotes.toNat 1 (-1) (-1) [] s

/-- Random stream given by its first values and 0 afterwards. -/
def streamOf (l : List Nat) : Nat → Nat := fun n => l.getD n 0

/-- Scale-step count of an encoded pitch, as computed inside `getInterval`. -/
def scaleStep (p : Int) : Int := 7 * (p.tdiv 10) + p.tmod 10

/-- A `std::string` is a `List Char`; `a.compare(b)` by sign: -1, 0 or 1 (characters are
compared by their codes, a proper prefix is smaller). -/
def strCompare : List Char → List Char → Int
  | [], [] => 0
  | [], _ :: _ => -1
  | _ :: _, [] => 1
  | a :: as, b :: bs =>
    if a.toNat < b.toNat then -1 else if b.toNat < a.toNat then 1 else strCompare as bs

/-- The `for` loop of `notePos` from counter `i` on: `i + 1` for the first entry of the key
that compares equal to `note`, or -1 when there is none. -/
def notePosLoop (note : List Char) : List (List Char) → Nat → Int
  | [], _ => -1
  | k :: rest, i =>
    if strCompare note k = 0 then ((i + 1 : Nat) : Int) else notePosLoop note rest (i + 1)

/-- Source: `notePos`. The octave is the code of the last character minus the code 48 of
'0'; `note.pop_back()` is `dropLast` (on an empty string the C++ code is undefined). -/
def notePos (note : List Char) (musicKey : List (List Char)) (octIndicator : Int) : Int :=
  if notePosLoop note.dropLast musicKey 0 = -1 then notePosLoop note.dropLast musicKey 0
  else if octIndicator ≤ notePosLoop note.dropLast musicKey 0 then
    10 * (((note.getLastD '0').toNat : Int) - 48) + notePosLoop note.dropLast musicKey 0
  else
    10 * (((note.getLastD '0').toNat : Int) - 48 + 1) + notePosLoop note.dropLast musicKey 0

/-- First loop of `getOctaveIndicator` (tonic below "C"), over the entries from index `i`. -/
def octaveUp : List (List Char) → Nat → Int
  | [], _ => -1
  | k :: rest, i =>
    if 0 ≤ strCompare k ['C'] then ((i + 1 : Nat) : Int) else octaveUp rest (i + 1)

/-- Second loop of `getOctaveIndicator` (tonic above "C"), from index `i` down to 1. -/
def octaveDown (musicKey : List (List Char)) : Nat → Int
  | 0 => -1
  | i + 1 =>
    if strCompare (musicKey.getD (i + 1) []) ['C'] < 0 then ((i + 1 + 2 : Nat) : Int)
    else if strCompare (musicKey.getD (i + 1) []) ['C'] = 0 then ((i + 1 + 1 : Nat) : Int)
    else octaveDown musicKey i

/-- Source: `getOctaveIndicator` (`musicKey[0]` is undefined in C++ on an empty key). -/
def getOctaveIndicator (musicKey : List (List Char)) : Int :=
  if strCompare (musicKey.getD 0 []) ['C'] = 0 then 1
  else if strCompare (musicKey.getD 0 []) ['C'] < 0 then octaveUp (musicKey.drop 1) 1
  else octaveDown musicKey (musicKey.length - 1)

/-- The key of C sharp major: C#, D#, E#, F#, G#, A#, B#. -/
def keyCSharp : List (List Char) :=
  [['C', '#'], ['D', '#'], ['E', '#'], ['F', '#'], ['G', '#'], ['A', '#'], ['B', '#']]

/-- The key of C major: C, D, E, F, G, A, B. -/
def keyC : List (List Char) := [['C'], ['D'], ['E'], ['F'], ['G'], ['A'], ['B']]

/-- The key of D major: D, E, F#, G, A, B, C#. -/
def keyD : List (List Char) := [['D'], ['E'], ['F', '#'], ['G'], ['A'], ['B'], ['C', '#']]

/-- The key of A major: A, B, C#, D, E, F#, G#. -/
def keyA : List (List Char) := [['A'], ['B'], ['C', '#'], ['D'], ['E'], ['F', '#'], ['G', '#']]

/-- Modelled from the spec: the frequency file read by `getNotes` is not among the sources.
These are the keys of the Note Table of the upper voice (range `ALTO`, 196.00 to 698.47 Hz)
in the key of F sharp (F#, G#, A#, B, C#, D#, F) with octave anchor 5: G#3 to F5, the tonic
F#5 lying above the range. -/
def altoFSharp : List Int := [42, 43, 44, 45, 46, 47, 51, 52, 53, 54, 55, 56, 57]

/-- The key of F sharp major as spelled with the twelve sharp names: F#, G#, A#, B, C#, D#, F. -/
def keyFSharp : List (List Char) :=
  [['F', '#'], ['G', '#'], ['A', '#'], ['B'], ['C', '#'], ['D', '#'], ['F']]

/-- The five filters in the order of the last branch of `getAllowedCtrptNotes`: parallel
fifths, parallel octaves, `removeOppositeLeaps`, `remove3xLeap`, `remove4xIntervalOrNote`. -/
def filtersCodeOrder (allowed ctrptNotes cantusNotes : List Int) : List Int :=
  remove4xIntervalOrNote
    (remove3xLeap
      (removeOppositeLeaps
        (removeParallelEighths (removeParallelFifths allowed ctrptNotes cantusNotes) ctrptNotes
          cantusNotes)
        ctrptNotes)
      ctrptNotes)
    ctrptNotes cantusNotes

/-- The five filters in the order in which the specification lists them: parallel fifths,
parallel octaves, `remove3xLeap`, `removeOppositeLeaps`, `remove4xIntervalOrNote`. -/
def filtersSpecOrder (allowed ctrptNotes cantusNotes : List Int) : List Int :=
  remove4xIntervalOrNote
    (removeOppositeLeaps
      (remove3xLeap
        (removeParallelEighths (removeParallelFifths allowed ctrptNotes cantusNotes) ctrptNotes
          cantusNotes)
        ctrptNotes)
      ctrptNotes)
    ctrptNotes cantusNotes

/-! ## Theorems -/

theorem mapErase_sublist (m : List Int) (key : Int) : (mapErase m key).Sublist m :=
  List.filter_sublist m

theorem eraseAll_sublist (removalList : List Int) :
    ∀ m : List Int, (eraseAll m removalList).Sublist m := by
  induction removalList with
  | nil => intro m; exact List.Sublist.refl m
  | cons a l ih =>
    intro m
    exact (ih (mapErase m a)).trans (mapErase_sublist m a)

theorem mem_eraseAll (removalList : List Int) : ∀ (m : List Int) (x : Int),
    x ∈ eraseAll m removalList ↔ x ∈ m ∧ x ∉ removalList := by
  induction removalList with
  | nil => intro m x; simp [eraseAll]
  | cons a l ih =>
    intro m x
    have h := ih (mapErase m a) x
    simp only [eraseAll, List.foldl_cons] at h ⊢
    rw [h]
    simp [mapErase]
    tauto

theorem eraseAll_filter (removalList : List Int) : ∀ m : List Int,
    eraseAll m removalList = m.filter (fun k => !removalList.contains k) := by
  intro m
  induction removalList generalizing m with
  | nil => simp [eraseAll]
  | cons a l ih =>
    simp only [eraseAll, List.foldl_cons] at ih ⊢
    rw [ih]
    simp only [mapErase, List.filter_filter]
    apply List.filter_congr
    intro x _
    by_cases h : x = a <;> simp [h]

theorem back_append_singleton (p : List Int) (x : Int) : back (p ++ [x]) = x := by
  simp [back, endAt, List.getD_eq_getElem?_getD]

theorem removeParallelFifths_sublist (a c k : List Int) :
    (removeParallelFifths a c k).Sublist a := by
  unfold removeParallelFifths
  split
  · exact List.Sublist.refl _
  · split
    · exact eraseAll_sublist _ _
    · exact List.Sublist.refl _

theorem removeParallelEighths_sublist (a c k : List Int) :
    (removeParallelEighths a c k).Sublist a := by
  unfold removeParallelEighths
  split
  · exact List.Sublist.refl _
  · split
    · exact eraseAll_sublist _ _
    · exact List.Sublist.refl _

theorem remove3xLeap_sublist (a c : List Int) : (remove3xLeap a c).Sublist a := by
  unfold remove3xLeap
  split
  · exact List.Sublist.refl _
  · split
    · exact eraseAll_sublist _ _
    · exact List.Sublist.refl _

theorem removeOppositeLeaps_sublist (a c : List Int) : (removeOppositeLeaps a c).Sublist a := by
  unfold removeOppositeLeaps
  split
  · exact List.Sublist.refl _
  · split
    · exact eraseAll_sublist _ _
    · exact List.Sublist.refl _

theorem remove4xNote_sublist (a c : List Int) : (remove4xNote a c).Sublist a := by
  unfold remove4xNote
  split
  · exact mapErase_sublist _ _
  · exact List.Sublist.refl _

theorem remove4xIntervalOrNote_sublist (a c k : List Int) :
    (remove4xIntervalOrNote a c k).Sublist a := by
  unfold remove4xIntervalOrNote
  split
  · exact List.Sublist.refl _
  · split
    · exact (eraseAll_sublist _ _).trans (remove4xNote_sublist _ _)
    · exact remove4xNote_sublist _ _

theorem generalCandidates_sublist (c k notes : List Int) :
    (generalCandidates c k notes).Sublist notes := List.filter_sublist _

theorem getAllowedCtrptNotes_sublist (c k notes : List Int) :
    (getAllowedCtrptNotes c k notes).Sublist notes := by
  have h1 := generalCandidates_sublist c k notes
  have h2 := (removeParallelFifths_sublist (generalCandidates c k notes) c k).trans h1
  have h3 := (removeParallelEighths_sublist _ c k).trans h2
  have h4 := (removeOppositeLeaps_sublist _ c).trans h3
  have h5 := (remove3xLeap_sublist _ c).trans h4
  have h6 := (remove4xIntervalOrNote_sublist _ c k).trans h5
  unfold getAllowedCtrptNotes
  split
  · exact List.filter_sublist _
  split
  · split <;> exact List.filter_sublist _
  split
  · exact List.filter_sublist _
  split
  · exact h3
  split
  · exact h4
  · exact h6

theorem drawUnvisited_spec (rnd : Nat → Nat) (keys visited : List Int) (hk : keys ≠ []) :
    ∀ (fuel s : Nat) (key : Int) (s1 : Nat),
      drawUnvisited rnd keys visited fuel s = some (key, s1) → key ∈ keys ∧ key ∉ visited := by
  intro fuel
  induction fuel with
  | zero => intro s key s1 h; simp [drawUnvisited] at h
  | succ n ih =>
    intro s key s1 h
    unfold drawUnvisited at h
    split at h
    · exact ih _ _ _ h
    · rename_i hv
      simp only [Option.some.injEq, Prod.mk.injEq] at h
      obtain ⟨h1, _⟩ := h
      subst h1
      refine ⟨?_, by simpa using hv⟩
      unfold randomNoteKey
      have hlen : 0 < keys.length := List.length_pos.mpr hk
      have hi : rnd s % keys.length < keys.length := Nat.mod_lt _ hlen
      rw [List.getD_eq_getElem _ _ hi]
      exact List.getElem_mem _

theorem getD_append_cons (p u : List Int) (x : Int) : (p ++ x :: u).getD p.length 0 = x := by
  induction p with
  | nil => rfl
  | cons a p ih => simpa using ih

theorem take_append_cons (p u : List Int) (x : Int) : (p ++ x :: u).take p.length = p := by
  induction p with
  | nil => rfl
  | cons a p ih => simp [ih]

theorem completes_self (cantusNotes notes p : List Int) (h : p.length = cantusNotes.length) :
    Completes cantusNotes notes p p :=
  ⟨h, ⟨[], List.append_nil p⟩, fun k h1 h2 => absurd h2 (by omega)⟩

theorem completes_eq (cantusNotes notes p t : List Int) (h : p.length = cantusNotes.length)
    (ht : Completes cantusNotes notes p t) : t = p := by
  obtain ⟨h1, h2, _⟩ := ht
  exact (List.IsPrefix.eq_of_length h2 (by omega)).symm

theorem completes_step (cantusNotes notes p t : List Int) (x : Int)
    (hx : x ∈ getAllowedCtrptNotes p cantusNotes notes)
    (ht : Completes cantusNotes notes (p ++ [x]) t) : Completes cantusNotes notes p t := by
  obtain ⟨h1, ⟨u, hu⟩, h3⟩ := ht
  refine ⟨h1, ⟨[x] ++ u, by simpa using hu⟩, ?_⟩
  intro k hk1 hk2
  by_cases hk : k = p.length
  · subst hk
    subst hu
    rw [List.append_assoc, List.singleton_append, getD_append_cons, take_append_cons]
    exact hx
  · exact h3 k (by simp; omega) hk2

theorem completes_split (cantusNotes notes p t : List Int) (hp : p.length < cantusNotes.length)
    (ht : Completes cantusNotes notes p t) :
    ∃ x, x ∈ getAllowedCtrptNotes p cantusNotes notes ∧ Completes cantusNotes notes (p ++ [x]) t := by
  obtain ⟨h1, ⟨u, hu⟩, h3⟩ := ht
  subst hu
  cases u with
  | nil => simp at h1; omega
  | cons x u =>
    refine ⟨x, ?_, h1, ⟨u, by simp⟩, ?_⟩
    · have := h3 p.length (le_refl _) (by simp)
      rwa [getD_append_cons, take_append_cons] at this
    · intro k hk1 hk2
      exact h3 k (by simp at hk1; omega) hk2

theorem back_failure (p : List Int) : back (p ++ [-1]) = -1 := back_append_singleton p (-1)

theorem no_completion_of_exhausted (cantusNotes notes p visited : List Int)
    (hp : p.length < cantusNotes.length)
    (hlen : ¬ visited.length < (getAllowedCtrptNotes p cantusNotes notes).length)
    (hnd : visited.Nodup)
    (hv : ∀ x ∈ visited, x ∈ getAllowedCtrptNotes p cantusNotes notes ∧
      ¬ ∃ t, Completes cantusNotes notes (p ++ [x]) t) :
    ¬ ∃ t, Completes cantusNotes notes p t := by
  rintro ⟨t, ht⟩
  obtain ⟨x, hx, hxt⟩ := completes_split cantusNotes notes p t hp ht
  have hsub : visited ⊆ getAllowedCtrptNotes p cantusNotes notes := fun y hy => (hv y hy).1
  have hperm := (List.subperm_of_subset hnd hsub).perm_of_length_le (Nat.le_of_not_lt hlen)
  exact (hv x (hperm.mem_iff.mpr hx)).2 ⟨t, hxt⟩

theorem tryNotes_spec (cantusNotes notes p : List Int) (rnd : Nat → Nat) (g : Nat)
    (hp : p.length < cantusNotes.length)
    (recur : List Int → Nat → Option SearchResult)
    (hrec : ∀ x s r, x ∈ getAllowedCtrptNotes p cantusNotes notes →
      recur (p ++ [x]) s = some r → SearchSpec cantusNotes notes (p ++ [x]) r) :
    ∀ (n : Nat) (visited : List Int) (s : Nat) (r : SearchResult),
      visited.Nodup →
      (∀ x ∈ visited, x ∈ getAllowedCtrptNotes p cantusNotes notes ∧
        ¬ ∃ t, Completes cantusNotes notes (p ++ [x]) t) →
      tryNotes recur rnd g (getAllowedCtrptNotes p cantusNotes notes) n visited p s = some r →
      SearchSpec cantusNotes notes p r := by
  intro n
  induction n with
  | zero =>
    intro visited s r hnd hv h
    unfold tryNotes at h
    split at h
    · simp at h
    · rename_i hlen
      simp only [Option.some.injEq] at h
      subst h
      exact Or.inr ⟨rfl, rfl, no_completion_of_exhausted cantusNotes notes p visited hp hlen hnd hv⟩
  | succ n ih =>
    intro visited s r hnd hv h
    unfold tryNotes at h
    split at h
    · rename_i hlen
      have hne : getAllowedCtrptNotes p cantusNotes notes ≠ [] := by
        intro h0; rw [h0] at hlen; simp at hlen
      split at h
      · simp at h
      · rename_i noteKey s1 hdraw
        obtain ⟨hmem, hnv⟩ := drawUnvisited_spec rnd _ visited hne _ _ _ _ hdraw
        split at h
        · simp at h
        · rename_i r1 hr1
          have hspec := hrec noteKey s1 r1 hmem hr1
          split at h
          · rename_i hback
            simp only [Option.some.injEq] at h
            subst h
            rcases hspec with ⟨h1, h2, h3⟩ | ⟨h1, _, _⟩
            · exact Or.inl ⟨h1, h2, completes_step cantusNotes notes p _ noteKey hmem h3⟩
            · rw [h1, back_failure] at hback
              exact absurd rfl hback
          · rename_i hback
            rcases hspec with ⟨h1, _, _⟩ | ⟨_, h2, h3⟩
            · exact absurd h1 hback
            · rw [h2] at h
              simp only [List.dropLast_concat] at h
              refine ih (noteKey :: visited) _ r (List.nodup_cons.mpr ⟨hnv, hnd⟩) ?_ h
              intro x hx
              rcases List.mem_cons.mp hx with hx | hx
              · subst hx; exact ⟨hmem, h3⟩
              · exact hv x hx
    · rename_i hlen
      simp only [Option.some.injEq] at h
      subst h
      exact Or.inr ⟨rfl, rfl, no_completion_of_exhausted cantusNotes notes p visited hp hlen hnd hv⟩

theorem backtrack_spec (rnd : Nat → Nat) (g : Nat) (notes cantusNotes : List Int)
    (hm1 : (-1 : Int) ∉ notes) :
    ∀ (depth : Nat) (p : List Int) (s : Nat) (r : SearchResult),
      (p.length < cantusNotes.length ∨ (p.length = cantusNotes.length ∧ back p ≠ -1)) →
      backtrackFillCtrptMelody rnd g notes cantusNotes depth p s = some r →
      SearchSpec cantusNotes notes p r := by
  intro depth
  induction depth with
  | zero => intro p s r _ h; simp [backtrackFillCtrptMelody] at h
  | succ d ih =>
    intro p s r hpre h
    unfold backtrackFillCtrptMelody at h
    split at h
    · rename_i hlen
      simp only [Option.some.injEq] at h
      subst h
      rcases hpre with hlt | ⟨_, hb⟩
      · omega
      · exact Or.inl ⟨hb, rfl, completes_self cantusNotes notes p hlen⟩
    · rename_i hlen
      have hp : p.length < cantusNotes.length := by
        rcases hpre with hlt | ⟨he, _⟩
        · exact hlt
        · exact absurd he hlen
      split at h
      · rename_i h0
        simp only [Option.some.injEq] at h
        subst h
        refine Or.inr ⟨rfl, rfl, ?_⟩
        rintro ⟨t, ht⟩
        obtain ⟨x, hx, _⟩ := completes_split cantusNotes notes p t hp ht
        rw [List.length_eq_zero.mp h0] at hx
        simp at hx
      · refine tryNotes_spec cantusNotes notes p rnd g hp _ ?_ _ [] s r List.nodup_nil
          (by simp) h
        intro x s1 r1 hx hr1
        refine ih (p ++ [x]) s1 r1 ?_ hr1
        have hxne : x ≠ -1 := by
          intro hx1
          exact hm1 (hx1 ▸ (getAllowedCtrptNotes_sublist p cantusNotes notes).subset hx)
        rw [back_append_singleton]
        simp only [List.length_append, List.length_singleton]
        by_cases hl : p.length + 1 < cantusNotes.length
        · exact Or.inl hl
        · exact Or.inr ⟨by omega, hxne⟩

theorem drawUnvisited_total_aux (rnd : Nat → Nat) (keys visited : List Int) :
    ∀ (d s : Nat), randomNoteKey (rnd (s + d)) keys ∉ visited →
      ∃ g0 res, ∀ g, g0 ≤ g → drawUnvisited rnd keys visited g s = some res := by
  intro d
  induction d with
  | zero =>
    intro s h
    refine ⟨1, (randomNoteKey (rnd s) keys, s + 1), ?_⟩
    intro g hg
    obtain ⟨g', rfl⟩ : ∃ g', g = g' + 1 := ⟨g - 1, by omega⟩
    unfold drawUnvisited
    have h' : ¬ visited.contains (randomNoteKey (rnd s) keys) = true := by simpa using h
    rw [if_neg h']
  | succ d ih =>
    intro s h
    by_cases hv : visited.contains (randomNoteKey (rnd s) keys) = true
    · obtain ⟨g0, res, hres⟩ := ih (s + 1) (by rwa [show s + 1 + d = s + (d + 1) by omega])
      refine ⟨g0 + 1, res, ?_⟩
      intro g hg
      obtain ⟨g', rfl⟩ : ∃ g', g = g' + 1 := ⟨g - 1, by omega⟩
      unfold drawUnvisited
      rw [if_pos hv]
      exact hres g' (by omega)
    · refine ⟨1, (randomNoteKey (rnd s) keys, s + 1), ?_⟩
      intro g hg
      obtain ⟨g', rfl⟩ : ∃ g', g = g' + 1 := ⟨g - 1, by omega⟩
      unfold drawUnvisited
      rw [if_neg hv]

theorem drawUnvisited_total (rnd : Nat → Nat) (bound : Nat) (hfair : FairRand rnd bound)
    (keys visited : List Int) (hb : keys.length ≤ bound)
    (hk : keys.Nodup) (hlen : visited.length < keys.length) (s : Nat) :
    ∃ g0 res, ∀ g, g0 ≤ g → drawUnvisited rnd keys visited g s = some res := by
  have hex : ∃ x, x ∈ keys ∧ x ∉ visited := by
    by_contra hcon
    push_neg at hcon
    have := (List.subperm_of_subset hk hcon).length_le
    omega
  obtain ⟨x, hx, hxv⟩ := hex
  obtain ⟨i, hi, hxi⟩ := List.getElem_of_mem hx
  obtain ⟨t, hst, ht⟩ := hfair s keys.length i hb hi
  obtain ⟨d, rfl⟩ : ∃ d, t = s + d := ⟨t - s, by omega⟩
  refine drawUnvisited_total_aux rnd keys visited d s ?_
  unfold randomNoteKey
  rw [ht, List.getD_eq_getElem _ _ hi, hxi]
  exact hxv

theorem tryNotes_total (cantusNotes notes p : List Int) (rnd : Nat → Nat)
    (hfair : FairRand rnd notes.length)
    (hnd : notes.Nodup)
    (recur : Nat → List Int → Nat → Option SearchResult)
    (hrec : ∀ g x s r, x ∈ getAllowedCtrptNotes p cantusNotes notes →
      recur g (p ++ [x]) s = some r → SearchSpec cantusNotes notes (p ++ [x]) r)
    (htot : ∀ x s, x ∈ getAllowedCtrptNotes p cantusNotes notes →
      ∃ g0 r, ∀ g, g0 ≤ g → recur g (p ++ [x]) s = some r) :
    ∀ (n : Nat) (visited : List Int) (s : Nat),
      visited.Nodup →
      (∀ x ∈ visited, x ∈ getAllowedCtrptNotes p cantusNotes notes) →
      (getAllowedCtrptNotes p cantusNotes notes).length ≤ visited.length + n →
      ∃ g0 r, ∀ g, g0 ≤ g →
        tryNotes (recur g) rnd g (getAllowedCtrptNotes p cantusNotes notes) n visited p s =
          some r := by
  intro n
  induction n with
  | zero =>
    intro visited s _ _ hlen
    refine ⟨0, ⟨p ++ [-1], p ++ [-1], s⟩, ?_⟩
    intro g _
    unfold tryNotes
    rw [if_neg (by omega)]
  | succ n ih =>
    intro visited s hvnd hv hlen
    by_cases hc : visited.length < (getAllowedCtrptNotes p cantusNotes notes).length
    · have hand : (getAllowedCtrptNotes p cantusNotes notes).Nodup :=
        (getAllowedCtrptNotes_sublist p cantusNotes notes).nodup hnd
      have hne : getAllowedCtrptNotes p cantusNotes notes ≠ [] := by
        intro h0; rw [h0] at hc; simp at hc
      obtain ⟨g1, ⟨key, s1⟩, hdraw⟩ := drawUnvisited_total rnd notes.length hfair _ visited
        (getAllowedCtrptNotes_sublist p cantusNotes notes).length_le hand hc s
      obtain ⟨hmem, hnv⟩ := drawUnvisited_spec rnd _ visited hne _ _ _ _ (hdraw g1 (le_refl _))
      obtain ⟨g2, r1, hr1⟩ := htot key s1 hmem
      have hspec := hrec g2 key s1 r1 hmem (hr1 g2 (le_refl _))
      by_cases hback : back r1.buffer ≠ -1
      · refine ⟨max g1 g2, r1, ?_⟩
        intro g hg
        unfold tryNotes
        rw [if_pos hc, hdraw g (by omega)]
        simp only
        rw [hr1 g (by omega)]
        simp only
        rw [if_pos hback]
      · have hacc : r1.ctrptNotes.dropLast.dropLast = p := by
          rcases hspec with ⟨h1, _, _⟩ | ⟨_, h2, _⟩
          · exact absurd h1 hback
          · rw [h2]; simp
        obtain ⟨g3, r, hr⟩ := ih (key :: visited) r1.seed (List.nodup_cons.mpr ⟨hnv, hvnd⟩)
          (by
            intro x hx
            rcases List.mem_cons.mp hx with hx | hx
            · subst hx; exact hmem
            · exact hv x hx)
          (by simp only [List.length_cons]; omega)
        refine ⟨max g1 (max g2 g3), r, ?_⟩
        intro g hg
        unfold tryNotes
        rw [if_pos hc, hdraw g (by omega)]
        simp only
        rw [hr1 g (by omega)]
        simp only
        rw [if_neg hback, hacc]
        exact hr g (by omega)
    · refine ⟨0, ⟨p ++ [-1], p ++ [-1], s⟩, ?_⟩
      intro g _
      unfold tryNotes
      rw [if_neg hc]

theorem backtrack_total (rnd : Nat → Nat) (notes cantusNotes : List Int)
    (hfair : FairRand rnd notes.length) (hm1 : (-1 : Int) ∉ notes) (hnd : notes.Nodup) :
    ∀ (depth : Nat) (p : List Int) (s : Nat),
      (p.length < cantusNotes.length ∨ (p.length = cantusNotes.length ∧ back p ≠ -1)) →
      cantusNotes.length - p.length < depth →
      ∃ g0 r, ∀ g, g0 ≤ g →
        backtrackFillCtrptMelody rnd g notes cantusNotes depth p s = some r := by
  intro depth
  induction depth with
  | zero => intro p s _ h; omega
  | succ d ih =>
    intro p s hpre hd
    by_cases hlen : p.length = cantusNotes.length
    · refine ⟨0, ⟨p, p, s⟩, ?_⟩
      intro g _
      unfold backtrackFillCtrptMelody
      rw [if_pos hlen]
    · have hp : p.length < cantusNotes.length := by
        rcases hpre with hlt | ⟨he, _⟩
        · exact hlt
        · exact absurd he hlen
      by_cases h0 : (getAllowedCtrptNotes p cantusNotes notes).length = 0
      · refine ⟨0, ⟨p ++ [-1], p ++ [-1], s⟩, ?_⟩
        intro g _
        unfold backtrackFillCtrptMelody
        rw [if_neg hlen, if_pos h0]
      · have hpre' : ∀ x, x ∈ getAllowedCtrptNotes p cantusNotes notes →
            ((p ++ [x]).length < cantusNotes.length ∨
              ((p ++ [x]).length = cantusNotes.length ∧ back (p ++ [x]) ≠ -1)) := by
          intro x hx
          have hxne : x ≠ -1 := by
            intro hx1
            exact hm1 (hx1 ▸ (getAllowedCtrptNotes_sublist p cantusNotes notes).subset hx)
          rw [back_append_singleton]
          simp only [List.length_append, List.length_singleton]
          by_cases hl : p.length + 1 < cantusNotes.length
          · exact Or.inl hl
          · exact Or.inr ⟨by omega, hxne⟩
        obtain ⟨g0, r, hr⟩ := tryNotes_total cantusNotes notes p rnd hfair hnd
          (fun g => backtrackFillCtrptMelody rnd g notes cantusNotes d)
          (fun g x s1 r1 hx hr1 =>
            backtrack_spec rnd g notes cantusNotes hm1 d (p ++ [x]) s1 r1 (hpre' x hx) hr1)
          (fun x s1 hx => ih (p ++ [x]) s1 (hpre' x hx)
            (by simp only [List.length_append, List.length_singleton]; omega))
          (getAllowedCtrptNotes p cantusNotes notes).length [] s List.nodup_nil (by simp)
          (by simp)
        refine ⟨g0, r, ?_⟩
        intro g hg
        unfold backtrackFillCtrptMelody
        rw [if_neg hlen, if_neg h0]
        exact hr g hg

theorem fairRand_cyclic (bound : Nat) (hb : bound ≤ 2147483648) : FairRand cyclicRand bound := by
  intro s n i hn hi
  refine ⟨s * 2147483648 + i, by omega, ?_⟩
  have h1 : (s * 2147483648 + i) % 2147483648 = i := by omega
  show (s * 2147483648 + i) % 2147483648 % n = i
  rw [h1, Nat.mod_eq_of_lt hi]

theorem fairRand_id (bound : Nat) : FairRand (fun n => n) bound := by
  intro s n i _ hi
  refine ⟨s * n + i, ?_, ?_⟩
  · have : s * 1 ≤ s * n := Nat.mul_le_mul_left s (by omega)
    omega
  · simp only
    rw [Nat.mul_comm, Nat.mul_add_mod]
    exact Nat.mod_eq_of_lt hi

theorem not_mem_of_valid (notes : List Int) (hvalid : ∀ x ∈ notes, ValidPitch x) :
    (-1 : Int) ∉ notes := by
  intro h
  have := (hvalid _ h).1
  omega

theorem sizeSub_of_le (a b : Nat) (hb : b ≤ a) (ha : a < 2 ^ 64) : sizeSub a b = a - b := by
  unfold sizeSub
  have h264 : (2 : Nat) ^ 64 = 18446744073709551616 := by norm_num
  rw [h264] at ha ⊢
  omega

theorem endAt_take (t : List Int) (k i : Nat) (hk : k ≤ t.length) (hi1 : 1 ≤ i) (hi2 : i ≤ k) :
    endAt (t.take k) i = t.getD (k - i) 0 := by
  unfold endAt
  rw [List.length_take, Nat.min_eq_left hk]
  rw [List.getD_eq_getElem?_getD, List.getD_eq_getElem?_getD, List.getElem?_take]
  rw [if_pos (by omega)]

theorem success_spec (rnd : Nat → Nat) (g depth s : Nat) (notes cantusNotes : List Int)
    (r : SearchResult) (hL : 1 ≤ cantusNotes.length) (hvalid : ∀ x ∈ notes, ValidPitch x)
    (hrun : backtrackFillCtrptMelody rnd g notes cantusNotes depth [] s = some r)
    (hlast : back r.buffer ≠ -1) :
    r.buffer.length = cantusNotes.length ∧
      ∀ k, k < cantusNotes.length →
        r.buffer.getD k 0 ∈ getAllowedCtrptNotes (r.buffer.take k) cantusNotes notes := by
  have hm1 := not_mem_of_valid notes hvalid
  have hspec := backtrack_spec rnd g notes cantusNotes hm1 depth [] s r
    (Or.inl (by simpa using hL)) hrun
  rcases hspec with ⟨_, _, h1, _, h3⟩ | ⟨h1, _, _⟩
  · exact ⟨h1, fun k hk => h3 k (Nat.zero_le _) (by omega)⟩
  · rw [h1] at hlast
    exact absurd (back_failure []) hlast

theorem mem_general (c cantusNotes notes : List Int) (x : Int) (h1 : 1 ≤ c.length)
    (h2 : c.length + 3 ≤ cantusNotes.length) (hL : cantusNotes.length < 2 ^ 64)
    (hx : x ∈ getAllowedCtrptNotes c cantusNotes notes) :
    x ∈ generalCandidates c cantusNotes notes := by
  have e2 := sizeSub_of_le cantusNotes.length 2 (by omega) hL
  have e1 := sizeSub_of_le cantusNotes.length 1 (by omega) hL
  have s2 := removeParallelFifths_sublist (generalCandidates c cantusNotes notes) c cantusNotes
  have s3 := (removeParallelEighths_sublist _ c cantusNotes).trans s2
  have s4 := (removeOppositeLeaps_sublist _ c).trans s3
  have s5 := (remove3xLeap_sublist _ c).trans s4
  have s6 := (remove4xIntervalOrNote_sublist _ c cantusNotes).trans s5
  unfold getAllowedCtrptNotes at hx
  rw [if_neg (by omega), if_neg (by omega), if_neg (by omega)] at hx
  split at hx
  · exact s3.subset hx
  · split at hx
    · exact s4.subset hx
    · exact s6.subset hx

theorem mem_generalCandidates (c cantusNotes notes : List Int) (x : Int)
    (hx : x ∈ generalCandidates c cantusNotes notes) :
    x ∈ notes ∧ isConsonant (getInterval (cantusNotes.getD (c.length - 1) 0) x) = true ∧
      getInterval (cantusNotes.getD (c.length - 1) 0) x ≤ 12 ∧
      x < cantusNotes.getD (c.length - 1) 0 ∧ getInterval (back c) x ≤ 6 := by
  unfold generalCandidates at hx
  simpa [and_assoc] using hx

theorem mem_remove4x (c cantusNotes notes : List Int) (x : Int) (h1 : 3 ≤ c.length)
    (h2 : c.length + 3 ≤ cantusNotes.length) (hL : cantusNotes.length < 2 ^ 64)
    (hx : x ∈ getAllowedCtrptNotes c cantusNotes notes)
    (heq : endAt c 1 = endAt c 2 ∧ endAt c 1 = endAt c 3) : x ≠ back c := by
  have e2 := sizeSub_of_le cantusNotes.length 2 (by omega) hL
  have e1 := sizeSub_of_le cantusNotes.length 1 (by omega) hL
  unfold getAllowedCtrptNotes at hx
  rw [if_neg (by omega), if_neg (by omega), if_neg (by omega), if_neg (by omega),
    if_neg (by omega)] at hx
  have hx4 : x ∈ remove4xNote (remove3xLeap (removeOppositeLeaps (removeParallelEighths
      (removeParallelFifths (generalCandidates c cantusNotes notes) c cantusNotes)
      c cantusNotes) c) c) c := by
    unfold remove4xIntervalOrNote at hx
    split at hx
    · rename_i h0
      rw [List.length_eq_zero.mp h0] at hx
      simp at hx
    · split at hx
      · exact (eraseAll_sublist _ _).subset hx
      · exact hx
  unfold remove4xNote at hx4
  rw [if_pos heq] at hx4
  unfold mapErase at hx4
  simpa using (List.mem_filter.mp hx4).2

theorem getInterval_self (x : Int) : getInterval x x = 1 := by
  unfold getInterval
  simp

theorem mem_final (c cantusNotes notes : List Int) (x : Int) (h1 : 1 ≤ c.length)
    (h2 : c.length + 1 = cantusNotes.length) (hL : cantusNotes.length < 2 ^ 64)
    (hx : x ∈ getAllowedCtrptNotes c cantusNotes notes) :
    x.tmod 10 = 1 ∧ getInterval (back c) x = 2 := by
  have e2 := sizeSub_of_le cantusNotes.length 2 (by omega) hL
  have e1 := sizeSub_of_le cantusNotes.length 1 (by omega) hL
  unfold getAllowedCtrptNotes at hx
  rw [if_neg (by omega), if_neg (by omega), if_pos (by omega)] at hx
  have := (List.mem_filter.mp hx).2
  simp only [Bool.and_eq_true, beq_iff_eq] at this
  exact this

theorem randomNoteKey_mem (r : Nat) (l : List Int) (h : ¬ l.length = 0) :
    randomNoteKey r l ∈ l := by
  unfold randomNoteKey
  have hi : r % l.length < l.length := Nat.mod_lt _ (by omega)
  rw [List.getD_eq_getElem _ _ hi]
  exact List.getElem_mem _

theorem writeCantusLoop_extends (rnd : Nat → Nat) (notes : List Int) (totalNotes : Int) :
    ∀ (fuel : Nat) (noteNum prev0 prev1 : Int) (acc : List Int) (s : Nat) (c : List Int)
      (s1 : Nat),
      writeCantusLoop rnd notes totalNotes fuel noteNum prev0 prev1 acc s = some (c, s1) →
      acc <+: c := by
  intro fuel
  induction fuel with
  | zero =>
    intro noteNum prev0 prev1 acc s c s1 h
    unfold writeCantusLoop at h
    split at h
    · simp at h
    · simp only [Option.some.injEq, Prod.mk.injEq] at h
      exact ⟨[], by rw [List.append_nil]; exact h.1⟩
  | succ n ih =>
    intro noteNum prev0 prev1 acc s c s1 h
    unfold writeCantusLoop at h
    split at h
    · split at h
      · simp at h
      · exact List.IsPrefix.trans ⟨_, rfl⟩ (ih _ _ _ _ _ _ _ h)
    · simp only [Option.some.injEq, Prod.mk.injEq] at h
      exact ⟨[], by rw [List.append_nil]; exact h.1⟩

theorem writeCantusLoop_done (rnd : Nat → Nat) (notes : List Int) (totalNotes : Int)
    (fuel : Nat) (noteNum prev0 prev1 : Int) (acc : List Int) (s : Nat) (c : List Int) (s1 : Nat)
    (hn : ¬ noteNum ≤ totalNotes)
    (h : writeCantusLoop rnd notes totalNotes fuel noteNum prev0 prev1 acc s = some (c, s1)) :
    c = acc := by
  cases fuel with
  | zero =>
    unfold writeCantusLoop at h
    rw [if_neg hn] at h
    simp only [Option.some.injEq, Prod.mk.injEq] at h
    exact h.1.symm
  | succ n =>
    unfold writeCantusLoop at h
    rw [if_neg hn] at h
    simp only [Option.some.injEq, Prod.mk.injEq] at h
    exact h.1.symm

theorem mem_cantus_last (notes : List Int) (prev0 prev1 totalNotes x : Int)
    (hx : x ∈ getAllowedCantusNotes notes prev0 prev1 totalNotes totalNotes) :
    x.tmod 10 = 1 := by
  unfold getAllowedCantusNotes at hx
  split at hx
  · simpa using (List.mem_filter.mp hx).2
  · rw [if_pos rfl] at hx
    have := (List.mem_filter.mp hx).2
    simp only [Bool.and_eq_true, beq_iff_eq] at this
    exact this.2

theorem writeCantusLoop_last (rnd : Nat → Nat) (notes : List Int) (totalNotes : Int) :
    ∀ (fuel : Nat) (noteNum prev0 prev1 : Int) (acc : List Int) (s : Nat) (c : List Int)
      (s1 : Nat), noteNum ≤ totalNotes →
      writeCantusLoop rnd notes totalNotes fuel noteNum prev0 prev1 acc s = some (c, s1) →
      (back c).tmod 10 = 1 := by
  intro fuel
  induction fuel with
  | zero =>
    intro noteNum prev0 prev1 acc s c s1 hn h
    unfold writeCantusLoop at h
    rw [if_pos hn] at h
    simp at h
  | succ n ih =>
    intro noteNum prev0 prev1 acc s c s1 hn h
    unfold writeCantusLoop at h
    rw [if_pos hn] at h
    split at h
    · simp at h
    · rename_i hne
      by_cases hnext : noteNum + 1 ≤ totalNotes
      · exact ih _ _ _ _ _ _ _ hnext h
      · have hc := writeCantusLoop_done rnd notes totalNotes n _ _ _ _ _ _ _ hnext h
        have heq : noteNum = totalNotes := by omega
        rw [hc, back_append_singleton]
        rw [heq] at hne ⊢
        exact mem_cantus_last notes prev0 prev1 totalNotes _ (randomNoteKey_mem _ _ hne)

theorem writeCantusMelody_first (rnd : Nat → Nat) (notes : List Int) (totalNotes : Int) (s : Nat)
    (c : List Int) (s1 : Nat) (ht : 1 ≤ totalNotes)
    (h : writeCantusMelody rnd notes totalNotes s = some (c, s1)) :
    (c.getD 0 0).tmod 10 = 1 := by
  unfold writeCantusMelody at h
  obtain ⟨n, hn⟩ : ∃ n, totalNotes.toNat = n + 1 := ⟨totalNotes.toNat - 1, by omega⟩
  rw [hn] at h
  unfold writeCantusLoop at h
  rw [if_pos ht] at h
  split at h
  · simp at h
  · rename_i hne
    obtain ⟨u, hu⟩ := writeCantusLoop_extends rnd notes totalNotes _ _ _ _ _ _ _ _ h
    have hmem := randomNoteKey_mem (rnd s) _ hne
    rw [← hu]
    simp only [List.nil_append, List.singleton_append, List.getD_cons_zero]
    unfold getAllowedCantusNotes at hmem ⊢
    rw [if_pos rfl] at hmem ⊢
    simpa using (List.mem_filter.mp hmem).2

theorem back_eq_getD (t : List Int) : back t = t.getD (t.length - 1) 0 := rfl

theorem success_last_tonic (rnd : Nat → Nat) (g depth s : Nat) (notes cantusNotes : List Int)
    (r : SearchResult) (hL : 1 ≤ cantusNotes.length) (hL2 : cantusNotes.length < 2 ^ 64)
    (hvalid : ∀ x ∈ notes, ValidPitch x)
    (hrun : backtrackFillCtrptMelody rnd g notes cantusNotes depth [] s = some r)
    (hlast : back r.buffer ≠ -1) : (back r.buffer).tmod 10 = 1 := by
  obtain ⟨hlen, hall⟩ := success_spec rnd g depth s notes cantusNotes r hL hvalid hrun hlast
  have hk := hall (cantusNotes.length - 1) (by omega)
  have hlt : (r.buffer.take (cantusNotes.length - 1)).length = cantusNotes.length - 1 := by
    rw [List.length_take]; omega
  rw [back_eq_getD, hlen]
  unfold getAllowedCtrptNotes at hk
  rw [hlt] at hk
  split at hk
  · simpa using (List.mem_filter.mp hk).2
  · have e2 := sizeSub_of_le cantusNotes.length 2 (by omega) hL2
    have e1 := sizeSub_of_le cantusNotes.length 1 (by omega) hL2
    rw [if_neg (by omega), if_pos (by omega)] at hk
    have := (List.mem_filter.mp hk).2
    simp only [Bool.and_eq_true, beq_iff_eq] at this
    exact this.1

theorem reduceIntervalAux_stable : ∀ (n m : Nat) (x : Int),
    x ≤ 7 + 7 * (n : Int) → x ≤ 7 + 7 * (m : Int) →
    reduceIntervalAux n x = reduceIntervalAux m x := by
  intro n
  induction n with
  | zero =>
    intro m x hn _
    have hx : x ≤ 7 := by simpa using hn
    cases m with
    | zero => rfl
    | succ m => simp [reduceIntervalAux, hx]
  | succ n ih =>
    intro m x hn hm
    by_cases hx : x ≤ 7
    · cases m with
      | zero => simp [reduceIntervalAux, hx]
      | succ m => simp [reduceIntervalAux, hx]
    · cases m with
      | zero => exact absurd (by simpa using hm) hx
      | succ m =>
        simp only [reduceIntervalAux, if_neg hx]
        exact ih m (x - 7) (by push_cast at hn; omega) (by push_cast at hm; omega)

/-- The defining equation of the C++ `reduceInterval`. -/
theorem reduceInterval_eq (interval : Int) :
    reduceInterval interval =
      if interval ≤ 7 then interval else reduceInterval (interval - 7) := by
  unfold reduceInterval
  by_cases hx : interval ≤ 7
  · rw [if_pos hx]
    cases interval.toNat with
    | zero => rfl
    | succ m => simp [reduceIntervalAux, hx]
  · rw [if_neg hx]
    obtain ⟨m, hm⟩ : ∃ m, interval.toNat = m + 1 := ⟨interval.toNat - 1, by omega⟩
    rw [hm]
    simp only [reduceIntervalAux, if_neg hx]
    exact reduceIntervalAux_stable m (interval - 7).toNat (interval - 7) (by omega) (by omega)

theorem drawUnvisited_stuck (rnd : Nat → Nat) (keys visited : List Int)
    (h : ∀ s, randomNoteKey (rnd s) keys ∈ visited) :
    ∀ fuel s, drawUnvisited rnd keys visited fuel s = none := by
  intro fuel
  induction fuel with
  | zero => intro s; rfl
  | succ n ih =>
    intro s
    unfold drawUnvisited
    rw [if_pos (by simpa using h s)]
    exact ih (s + 1)

theorem tryNotes_stuck (recur : List Int → Nat → Option SearchResult) (c g : Nat)
    (allowed p : List Int) (hA : 2 ≤ allowed.length)
    (hrec : ∀ s1 r, recur (p ++ [randomNoteKey c allowed]) s1 = some r → back r.buffer = -1) :
    ∀ n s, tryNotes recur (fun _ => c) g allowed n [] p s = none := by
  intro n s
  cases n with
  | zero =>
    unfold tryNotes
    rw [if_pos (by simp only [List.length_nil]; omega)]
  | succ n =>
    unfold tryNotes
    rw [if_pos (by simp only [List.length_nil]; omega)]
    cases g with
    | zero => rfl
    | succ g =>
      have hd : drawUnvisited (fun _ => c) allowed [] (g + 1) s =
          some (randomNoteKey c allowed, s + 1) := by
        unfold drawUnvisited
        rw [if_neg (by simp)]
      rw [hd]
      simp only
      cases hr : recur (p ++ [randomNoteKey c allowed]) (s + 1) with
      | none => rfl
      | some r =>
        simp only
        rw [if_neg (by rw [hrec _ _ hr]; simp)]
        cases n with
        | zero =>
          unfold tryNotes
          rw [if_pos (by simp only [List.length_cons, List.length_nil]; omega)]
        | succ n =>
          unfold tryNotes
          rw [if_pos (by simp only [List.length_cons, List.length_nil]; omega),
            drawUnvisited_stuck (fun _ => c) allowed [randomNoteKey c allowed] (by simp)]

theorem backtrack_stuck (c g : Nat) (notes cantusNotes p : List Int)
    (hlen : p.length ≠ cantusNotes.length)
    (hA : 2 ≤ (getAllowedCtrptNotes p cantusNotes notes).length)
    (hrec : ∀ (d s1 : Nat) (r : SearchResult),
      backtrackFillCtrptMelody (fun _ => c) g notes cantusNotes d
        (p ++ [randomNoteKey c (getAllowedCtrptNotes p cantusNotes notes)]) s1 = some r →
      back r.buffer = -1) :
    ∀ d s, backtrackFillCtrptMelody (fun _ => c) g notes cantusNotes d p s = none := by
  intro d s
  cases d with
  | zero => rfl
  | succ d =>
    unfold backtrackFillCtrptMelody
    rw [if_neg hlen, if_neg (by omega)]
    exact tryNotes_stuck _ c g _ p hA (hrec d) _ s

/-! ## The claims -/

/-- C1 (soundness of the search): for a cantus of length L ≥ 1 and a Note Table of valid
pitches, when the search started from the empty sequence returns a sequence whose last
element is not -1, that sequence has length L, contains no -1, and its k-th element is a
member of `getAllowedCtrptNotes` of its first k elements, for every k < L. -/
theorem backtrack_sound (rnd : Nat → Nat) (g depth s : Nat) (notes cantusNotes : List Int)
    (r : SearchResult) (hL : 1 ≤ cantusNotes.length) (hvalid : ∀ x ∈ notes, ValidPitch x)
    (hrun : backtrackFillCtrptMelody rnd g notes cantusNotes depth [] s = some r)
    (hlast : back r.buffer ≠ -1) :
    r.buffer.length = cantusNotes.length ∧ (-1 : Int) ∉ r.buffer ∧
      ∀ k, k < cantusNotes.length →
        r.buffer.getD k 0 ∈ getAllowedCtrptNotes (r.buffer.take k) cantusNotes notes := by
  have hm1 := not_mem_of_valid notes hvalid
  have hspec := backtrack_spec rnd g notes cantusNotes hm1 depth [] s r
    (Or.inl (by simpa using hL)) hrun
  rcases hspec with ⟨_, _, h1, _, h3⟩ | ⟨h1, _, _⟩
  · have hall : ∀ k, k < cantusNotes.length →
        r.buffer.getD k 0 ∈ getAllowedCtrptNotes (r.buffer.take k) cantusNotes notes :=
      fun k hk => h3 k (Nat.zero_le _) (by omega)
    refine ⟨h1, ?_, hall⟩
    intro hmem
    obtain ⟨k, hk, hke⟩ := List.getElem_of_mem hmem
    have := (getAllowedCtrptNotes_sublist _ cantusNotes notes).subset (hall k (by omega))
    rw [List.getD_eq_getElem _ _ hk, hke] at this
    exact hm1 this
  · rw [h1] at hlast
    exact absurd (back_failure []) hlast

theorem backtrack_sound_witness :
    [31, 34, 32, 31].length = [41, 35, 37, 41].length ∧ (-1 : Int) ∉ [31, 34, 32, 31] ∧
      ∀ k, k < [41, 35, 37, 41].length →
        [31, 34, 32, 31].getD k 0 ∈
          getAllowedCtrptNotes ([31, 34, 32, 31].take k) [41, 35, 37, 41] tenorC :=
  backtrack_sound (fun n => n) 4 5 0 tenorC [41, 35, 37, 41]
    ⟨[31, 34, 32, 31], [31, 34, 32, 31], 4⟩ (by decide) (by decide) (by decide) (by decide)

/-- C2 (completeness of the search): for a cantus of length L ≥ 1 and a Note Table of valid
pitches, the search started from the empty sequence returns whenever `rand()` keeps
delivering every index of the lists it is asked to index (lists no longer than the table),
and the result it returns is sentinel-terminated if and only if no sequence of length L has
each element among the candidates for its predecessors; the same equivalence holds for
every result returned under any random stream, so success or failure does not depend on
the random choices. -/
theorem backtrack_complete (rnd : Nat → Nat) (s : Nat) (notes cantusNotes : List Int)
    (hL : 1 ≤ cantusNotes.length) (hvalid : ∀ x ∈ notes, ValidPitch x) (hnd : notes.Nodup)
    (hfair : FairRand rnd notes.length) :
    (∃ g0 r,
      (∀ g, g0 ≤ g →
        backtrackFillCtrptMelody rnd g notes cantusNotes (cantusNotes.length + 1) [] s =
          some r) ∧
      (back r.buffer = -1 ↔
        ¬ ∃ t : List Int, t.length = cantusNotes.length ∧
          ∀ k, k < cantusNotes.length →
            t.getD k 0 ∈ getAllowedCtrptNotes (t.take k) cantusNotes notes)) ∧
    ∀ (rnd1 : Nat → Nat) (g1 d1 s1 : Nat) (r1 : SearchResult),
      backtrackFillCtrptMelody rnd1 g1 notes cantusNotes d1 [] s1 = some r1 →
      (back r1.buffer = -1 ↔
        ¬ ∃ t : List Int, t.length = cantusNotes.length ∧
          ∀ k, k < cantusNotes.length →
            t.getD k 0 ∈ getAllowedCtrptNotes (t.take k) cantusNotes notes) := by
  have hm1 := not_mem_of_valid notes hvalid
  have hpre : ([] : List Int).length < cantusNotes.length ∨
      (([] : List Int).length = cantusNotes.length ∧ back [] ≠ -1) := Or.inl (by simpa using hL)
  have hiff : (∃ t, Completes cantusNotes notes [] t) ↔
      ∃ t : List Int, t.length = cantusNotes.length ∧
        ∀ k, k < cantusNotes.length →
          t.getD k 0 ∈ getAllowedCtrptNotes (t.take k) cantusNotes notes := by
    constructor
    · rintro ⟨t, h1, _, h3⟩
      exact ⟨t, h1, fun k hk => h3 k (Nat.zero_le _) (by omega)⟩
    · rintro ⟨t, h1, h3⟩
      exact ⟨t, h1, ⟨t, rfl⟩, fun k _ hk => h3 k (by omega)⟩
  have hall : ∀ (rnd1 : Nat → Nat) (g1 d1 s1 : Nat) (r1 : SearchResult),
      backtrackFillCtrptMelody rnd1 g1 notes cantusNotes d1 [] s1 = some r1 →
      (back r1.buffer = -1 ↔
        ¬ ∃ t : List Int, t.length = cantusNotes.length ∧
          ∀ k, k < cantusNotes.length →
            t.getD k 0 ∈ getAllowedCtrptNotes (t.take k) cantusNotes notes) := by
    intro rnd1 g1 d1 s1 r1 hrun
    rw [← hiff]
    rcases backtrack_spec rnd1 g1 notes cantusNotes hm1 d1 [] s1 r1 hpre hrun with
      ⟨h1, _, h3⟩ | ⟨h1, _, h3⟩
    · exact ⟨fun h => absurd h h1, fun h => absurd ⟨_, h3⟩ h⟩
    · exact ⟨fun _ => h3, fun _ => by rw [h1]; exact back_failure []⟩
  refine ⟨?_, hall⟩
  obtain ⟨g0, r, hr⟩ := backtrack_total rnd notes cantusNotes hfair hm1 hnd
    (cantusNotes.length + 1) [] s hpre (by simp)
  exact ⟨g0, r, hr, hall rnd g0 _ s r (hr g0 (le_refl _))⟩

theorem backtrack_complete_witness :
    (∃ g0 r,
      (∀ g, g0 ≤ g →
        backtrackFillCtrptMelody cyclicRand g tenorC [41, 31, 43, 42, 41]
          ([41, 31, 43, 42, 41].length + 1) [] 0 = some r) ∧
      (back r.buffer = -1 ↔
        ¬ ∃ t : List Int, t.length = [41, 31, 43, 42, 41].length ∧
          ∀ k, k < [41, 31, 43, 42, 41].length →
            t.getD k 0 ∈ getAllowedCtrptNotes (t.take k) [41, 31, 43, 42, 41] tenorC)) ∧
    ∀ (rnd1 : Nat → Nat) (g1 d1 s1 : Nat) (r1 : SearchResult),
      backtrackFillCtrptMelody rnd1 g1 tenorC [41, 31, 43, 42, 41] d1 [] s1 = some r1 →
      (back r1.buffer = -1 ↔
        ¬ ∃ t : List Int, t.length = [41, 31, 43, 42, 41].length ∧
          ∀ k, k < [41, 31, 43, 42, 41].length →
            t.getD k 0 ∈ getAllowedCtrptNotes (t.take k) [41, 31, 43, 42, 41] tenorC) :=
  backtrack_complete cyclicRand 0 tenorC [41, 31, 43, 42, 41] (by decide) (by decide)
    (by decide) (fairRand_cyclic tenorC.length (by decide))

/-- C3 (failure restores the accumulator): when a call on a partial sequence `p` shorter than
the cantus fails, the returned sequence and the by-reference accumulator are both `p`
followed by a single -1; at the top level the failed result is `[-1]`. -/
theorem backtrack_failure_restores (rnd : Nat → Nat) (g depth s : Nat)
    (notes cantusNotes p : List Int) (r : SearchResult)
    (hvalid : ∀ x ∈ notes, ValidPitch x) (hp : p.length < cantusNotes.length)
    (hrun : backtrackFillCtrptMelody rnd g notes cantusNotes depth p s = some r)
    (hfail : back r.buffer = -1) :
    r.buffer = p ++ [-1] ∧ r.ctrptNotes = p ++ [-1] ∧ (p = [] → r.buffer = [-1]) := by
  have hm1 := not_mem_of_valid notes hvalid
  rcases backtrack_spec rnd g notes cantusNotes hm1 depth p s r (Or.inl hp) hrun with
    ⟨h1, _, _⟩ | ⟨h1, h2, _⟩
  · exact absurd hfail h1
  · exact ⟨h1, h2, fun hnil => by rw [h1, hnil]; rfl⟩

theorem backtrack_failure_restores_witness :
    backtrackFillCtrptMelody (fun n => n) 4 tenorC [41, 31, 43, 42, 41] 5 [41] 0 =
        some ⟨[41, -1], [41, -1], 3⟩ ∧
      ([41, -1] = [41] ++ [(-1 : Int)] ∧ [41, -1] = [41] ++ [(-1 : Int)] ∧
        (([41] : List Int) = [] → [41, -1] = [(-1 : Int)])) :=
  ⟨by decide, backtrack_failure_restores (fun n => n) 4 5 0 tenorC [41, 31, 43, 42, 41] [41]
    ⟨[41, -1], [41, -1], 3⟩ (by decide) (by decide) (by decide) (by decide)⟩

/-- C4 (counterexample): with a `rand()` that always returns 0, the call for the cantus
41 31 43 42 41 never returns: at the partial sequence 31 the first candidate 33 fails, and
the rejection loop then draws the visited pitch 33 for ever. -/
theorem backtrack_terminates_counterexample :
    ¬ ∃ (g d : Nat) (r : SearchResult),
      backtrackFillCtrptMelody (fun _ => 0) g tenorC [41, 31, 43, 42, 41] d [] 0 = some r := by
  rintro ⟨g, d, r, h⟩
  have e0 : [] ++ [randomNoteKey 0 (getAllowedCtrptNotes [] [41, 31, 43, 42, 41] tenorC)] =
      ([31] : List Int) := by decide
  have e1 : [31] ++ [randomNoteKey 0 (getAllowedCtrptNotes [31] [41, 31, 43, 42, 41] tenorC)] =
      ([31, 33] : List Int) := by decide
  have h2 : ∀ (d1 s1 : Nat) (r1 : SearchResult),
      backtrackFillCtrptMelody (fun _ => 0) g tenorC [41, 31, 43, 42, 41] d1 [31, 33] s1 =
        some r1 → back r1.buffer = -1 := by
    intro d1 s1 r1 hr
    cases d1 with
    | zero => simp [backtrackFillCtrptMelody] at hr
    | succ d1 =>
      unfold backtrackFillCtrptMelody at hr
      rw [if_neg (by decide), if_pos (by decide)] at hr
      simp only [Option.some.injEq] at hr
      subst hr
      exact back_failure _
  have h1 : ∀ (d1 s1 : Nat),
      backtrackFillCtrptMelody (fun _ => 0) g tenorC [41, 31, 43, 42, 41] d1 [31] s1 = none :=
    backtrack_stuck 0 g tenorC [41, 31, 43, 42, 41] [31] (by decide) (by decide)
      (by rw [e1]; exact h2)
  have h0 := backtrack_stuck 0 g tenorC [41, 31, 43, 42, 41] [] (by decide) (by decide)
    (by
      rw [e0]
      intro d1 s1 r1 hr
      rw [h1 d1 s1] at hr
      cases hr) d 0
  rw [h0] at h
  cases h

/-- C4 (amended): for a Note Table of valid pitches and a `rand()` that keeps delivering
every index of the lists it is asked to index (lists no longer than the table), a call on a
partial sequence `p` returns with recursion depth at most L - |p| (the depth bound given to
the model) once the rejection loops have enough fuel; and every key the rejection loop
delivers is a candidate not tried before in that call. -/
theorem backtrack_terminates (rnd : Nat → Nat) (s : Nat) (notes cantusNotes p : List Int)
    (hvalid : ∀ x ∈ notes, ValidPitch x) (hnd : notes.Nodup)
    (hfair : FairRand rnd notes.length) (hp : p.length ≤ cantusNotes.length) :
    (∃ g0 r, ∀ g, g0 ≤ g →
      backtrackFillCtrptMelody rnd g notes cantusNotes (cantusNotes.length - p.length + 1) p s =
        some r) ∧
    ∀ (visited : List Int) (g s0 : Nat) (key : Int) (s1 : Nat),
      visited.length < (getAllowedCtrptNotes p cantusNotes notes).length →
      drawUnvisited rnd (getAllowedCtrptNotes p cantusNotes notes) visited g s0 =
        some (key, s1) →
      key ∈ getAllowedCtrptNotes p cantusNotes notes ∧ key ∉ visited := by
  have hm1 := not_mem_of_valid notes hvalid
  constructor
  · by_cases hlen : p.length = cantusNotes.length
    · refine ⟨0, ⟨p, p, s⟩, ?_⟩
      intro g _
      unfold backtrackFillCtrptMelody
      rw [if_pos hlen]
    · exact backtrack_total rnd notes cantusNotes hfair hm1 hnd _ p s (Or.inl (by omega))
        (by omega)
  · intro visited g s0 key s1 hlen hdraw
    have hne : getAllowedCtrptNotes p cantusNotes notes ≠ [] := by
      intro h0; rw [h0] at hlen; simp at hlen
    exact drawUnvisited_spec rnd _ visited hne _ _ _ _ hdraw

theorem backtrack_terminates_witness :
    (∃ g0 r, ∀ g, g0 ≤ g →
      backtrackFillCtrptMelody cyclicRand g tenorC [41, 31, 43, 42, 41]
        ([41, 31, 43, 42, 41].length - ([] : List Int).length + 1) [] 0 = some r) ∧
    ∀ (visited : List Int) (g s0 : Nat) (key : Int) (s1 : Nat),
      visited.length < (getAllowedCtrptNotes [] [41, 31, 43, 42, 41] tenorC).length →
      drawUnvisited cyclicRand (getAllowedCtrptNotes [] [41, 31, 43, 42, 41] tenorC)
        visited g s0 = some (key, s1) →
      key ∈ getAllowedCtrptNotes [] [41, 31, 43, 42, 41] tenorC ∧ key ∉ visited :=
  backtrack_terminates cyclicRand 0 tenorC [41, 31, 43, 42, 41] [] (by decide) (by decide)
    (fairRand_cyclic tenorC.length (by decide)) (by decide)

/-- C5 (counterexample): in the key of C with one measure, the generator can produce the
cantus 41 35 37 41 and the search can return the counterpoint 41 36 42 41 for it, which is
not below the cantus at position 0 (where no test is made) nor at the general position 1. -/
theorem ctrpt_below_cantus_counterexample :
    writeCantusMelody (streamOf [0, 0, 0, 0, 1, 2, 1, 0]) altoC (calcTotalNotes 1) 0 =
        some ([41, 35, 37, 41], 4) ∧
      backtrackFillCtrptMelody (streamOf [0, 0, 0, 0, 1, 2, 1, 0]) 1 tenorC [41, 35, 37, 41] 5 []
        4 = some ⟨[41, 36, 42, 41], [41, 36, 42, 41], 8⟩ ∧
      ¬ ([41, 36, 42, 41].getD 0 0 < [41, 35, 37, 41].getD 0 (0 : Int)) ∧
      ¬ ([41, 36, 42, 41].getD 1 0 < [41, 35, 37, 41].getD 1 (0 : Int)) := by
  decide

/-- C5 (amended): a successful counterpoint has the length of its cantus, and at every
general position p (1 ≤ p ≤ L-3) whose cantus note is not lower than the preceding cantus
note, the counterpoint pitch is strictly below the cantus pitch, `ctrpt[p] < cantus[p]`. -/
theorem ctrpt_below_cantus (rnd : Nat → Nat) (g depth s : Nat) (notes cantusNotes : List Int)
    (r : SearchResult) (p : Nat) (hvalid : ∀ x ∈ notes, ValidPitch x)
    (hL : cantusNotes.length < 2 ^ 64)
    (hrun : backtrackFillCtrptMelody rnd g notes cantusNotes depth [] s = some r)
    (hlast : back r.buffer ≠ -1) (hp1 : 1 ≤ p) (hp2 : p + 3 ≤ cantusNotes.length)
    (hasc : cantusNotes.getD (p - 1) 0 ≤ cantusNotes.getD p 0) :
    r.buffer.length = cantusNotes.length ∧ r.buffer.getD p 0 < cantusNotes.getD p 0 := by
  obtain ⟨hlen, hall⟩ := success_spec rnd g depth s notes cantusNotes r (by omega) hvalid hrun hlast
  refine ⟨hlen, ?_⟩
  have hk := hall p (by omega)
  have hlt : (r.buffer.take p).length = p := by rw [List.length_take]; omega
  have hg := mem_generalCandidates _ _ _ _
    (mem_general (r.buffer.take p) cantusNotes notes _ (by omega) (by omega) hL hk)
  rw [hlt] at hg
  exact lt_of_lt_of_le hg.2.2.2.1 hasc

theorem ctrpt_below_cantus_witness :
    backtrackFillCtrptMelody (streamOf [0, 5, 1, 0, 1, 1, 0, 0]) 1 tenorC [41, 43, 42, 41] 5 [] 4 =
        some ⟨[41, 34, 37, 41], [41, 34, 37, 41], 8⟩ ∧
      ([41, 34, 37, 41].length = [41, 43, 42, 41].length ∧
        [41, 34, 37, 41].getD 1 0 < [41, 43, 42, 41].getD 1 (0 : Int)) :=
  ⟨by decide, ctrpt_below_cantus (streamOf [0, 5, 1, 0, 1, 1, 0, 0]) 1 5 4 tenorC [41, 43, 42, 41]
    ⟨[41, 34, 37, 41], [41, 34, 37, 41], 8⟩ 1 (by decide) (by decide) (by decide) (by decide)
    (by decide) (by decide) (by decide)⟩

/-- C6 (failing input): a generated cantus and a successful counterpoint whose interval at
position 1, neither penultimate nor final, is dissonant. -/
theorem consonance_failing_input :
    writeCantusMelody (streamOf [0, 5, 1, 0, 1, 1, 0, 0]) altoC (calcTotalNotes 1) 0 =
        some ([41, 43, 42, 41], 4) ∧
      backtrackFillCtrptMelody (streamOf [0, 5, 1, 0, 1, 1, 0, 0]) 1 tenorC [41, 43, 42, 41] 5 []
        4 = some ⟨[41, 34, 37, 41], [41, 34, 37, 41], 8⟩ ∧
      isConsonant (getInterval ([41, 43, 42, 41].getD 1 0) ([41, 34, 37, 41].getD 1 0)) =
        false := by
  decide

/-- C7 (failing input): a generated cantus and a successful counterpoint whose intervals at
positions 0 and 1 both reduce to 1. -/
theorem parallel_failing_input :
    writeCantusMelody (streamOf [0, 5, 1, 0, 1, 0, 0, 0]) altoC (calcTotalNotes 1) 0 =
        some ([41, 43, 42, 41], 4) ∧
      backtrackFillCtrptMelody (streamOf [0, 5, 1, 0, 1, 0, 0, 0]) 1 tenorC [41, 43, 42, 41] 5 []
        4 = some ⟨[41, 33, 37, 41], [41, 33, 37, 41], 8⟩ ∧
      reduceInterval (getInterval ([41, 43, 42, 41].getD 0 0) ([41, 33, 37, 41].getD 0 0)) = 1 ∧
      reduceInterval (getInterval ([41, 43, 42, 41].getD 1 0) ([41, 33, 37, 41].getD 1 0)) =
        1 := by
  decide

/-- C8 (counterexample): a generated cantus and a successful counterpoint with the pitch 32
at positions 3, 4, 5 and also at the penultimate position 6. -/
theorem triple_repetition_counterexample :
    writeCantusMelody (streamOf [0, 0, 0, 2, 2, 0, 0, 0, 0, 0, 0, 1, 0, 0, 0, 0]) altoC
        (calcTotalNotes 2) 0 = some ([41, 35, 36, 37, 37, 35, 37, 41], 8) ∧
      backtrackFillCtrptMelody (streamOf [0, 0, 0, 2, 2, 0, 0, 0, 0, 0, 0, 1, 0, 0, 0, 0]) 1
        tenorC [41, 35, 36, 37, 37, 35, 37, 41] 9 [] 8 =
        some ⟨[31, 33, 33, 32, 32, 32, 32, 31], [31, 33, 33, 32, 32, 32, 32, 31], 16⟩ ∧
      ([31, 33, 33, 32, 32, 32, 32, 31].getD 3 (0 : Int) = [31, 33, 33, 32, 32, 32, 32, 31].getD 4 0 ∧
        [31, 33, 33, 32, 32, 32, 32, 31].getD 4 (0 : Int) =
          [31, 33, 33, 32, 32, 32, 32, 31].getD 5 0 ∧
        [31, 33, 33, 32, 32, 32, 32, 31].getD 5 (0 : Int) =
          [31, 33, 33, 32, 32, 32, 32, 31].getD 6 0) := by
  decide

/-- C8 (amended): a successful counterpoint has no four equal consecutive pitches
`ctrpt[p] = ctrpt[p+1] = ctrpt[p+2] = ctrpt[p+3]`, unless the fourth of them stands at the
penultimate position (p+3 = L-2). -/
theorem no_fourfold_note (rnd : Nat → Nat) (g depth s : Nat) (notes cantusNotes : List Int)
    (r : SearchResult) (p : Nat) (hvalid : ∀ x ∈ notes, ValidPitch x)
    (hL : cantusNotes.length < 2 ^ 64)
    (hrun : backtrackFillCtrptMelody rnd g notes cantusNotes depth [] s = some r)
    (hlast : back r.buffer ≠ -1) (hp : p + 3 < cantusNotes.length)
    (hpen : p + 3 ≠ cantusNotes.length - 2) :
    ¬ (r.buffer.getD p 0 = r.buffer.getD (p + 1) 0 ∧
        r.buffer.getD (p + 1) 0 = r.buffer.getD (p + 2) 0 ∧
        r.buffer.getD (p + 2) 0 = r.buffer.getD (p + 3) 0) := by
  obtain ⟨hlen, hall⟩ := success_spec rnd g depth s notes cantusNotes r (by omega) hvalid hrun hlast
  rintro ⟨h1, h2, h3⟩
  have hk := hall (p + 3) (by omega)
  have hlt : (r.buffer.take (p + 3)).length = p + 3 := by rw [List.length_take]; omega
  have e1 := endAt_take r.buffer (p + 3) 1 (by omega) (by omega) (by omega)
  have e2 := endAt_take r.buffer (p + 3) 2 (by omega) (by omega) (by omega)
  have e3 := endAt_take r.buffer (p + 3) 3 (by omega) (by omega) (by omega)
  simp only [Nat.add_sub_cancel, show p + 3 - 1 = p + 2 by omega,
    show p + 3 - 2 = p + 1 by omega] at e1 e2 e3
  by_cases hfin : p + 4 = cantusNotes.length
  · have hf := (mem_final (r.buffer.take (p + 3)) cantusNotes notes _ (by omega) (by omega) hL
      hk).2
    unfold back at hf
    rw [e1, h3, getInterval_self] at hf
    omega
  · have hne := mem_remove4x (r.buffer.take (p + 3)) cantusNotes notes _ (by omega) (by omega)
      hL hk (by rw [e1, e2, e3]; exact ⟨h2.symm, by rw [← h2, ← h1]⟩)
    unfold back at hne
    rw [e1] at hne
    exact hne h3.symm

theorem no_fourfold_note_witness :
    backtrackFillCtrptMelody (streamOf [0, 0, 0, 2, 2, 0, 0, 0, 0, 0, 0, 1, 0, 0, 0, 0]) 1
        tenorC [41, 35, 36, 37, 37, 35, 37, 41] 9 [] 8 =
        some ⟨[31, 33, 33, 32, 32, 32, 32, 31], [31, 33, 33, 32, 32, 32, 32, 31], 16⟩ ∧
      ¬ ([31, 33, 33, 32, 32, 32, 32, 31].getD 2 (0 : Int) =
          [31, 33, 33, 32, 32, 32, 32, 31].getD (2 + 1) 0 ∧
        [31, 33, 33, 32, 32, 32, 32, 31].getD (2 + 1) (0 : Int) =
          [31, 33, 33, 32, 32, 32, 32, 31].getD (2 + 2) 0 ∧
        [31, 33, 33, 32, 32, 32, 32, 31].getD (2 + 2) (0 : Int) =
          [31, 33, 33, 32, 32, 32, 32, 31].getD (2 + 3) 0) :=
  ⟨by decide, no_fourfold_note (streamOf [0, 0, 0, 2, 2, 0, 0, 0, 0, 0, 0, 1, 0, 0, 0, 0]) 1 9 8
    tenorC [41, 35, 36, 37, 37, 35, 37, 41]
    ⟨[31, 33, 33, 32, 32, 32, 32, 31], [31, 33, 33, 32, 32, 32, 32, 31], 16⟩ 2 (by decide)
    (by decide) (by decide) (by decide) (by decide) (by decide)⟩

/-- C9 (first note is the tonic): `getAllowedCantusNotes` at `noteNum = 1` and
`getAllowedCtrptNotes` on the empty counterpoint both return exactly the pitches of the table
whose degree digit is 1, so the first element of every generated cantus and of every
successful counterpoint has degree 1. -/
theorem first_note_tonic :
    (∀ (notes : List Int) (prev0 prev1 totalNotes : Int),
      getAllowedCantusNotes notes prev0 prev1 1 totalNotes =
        notes.filter (fun k => k.tmod 10 == 1)) ∧
    (∀ (notes cantusNotes : List Int),
      getAllowedCtrptNotes [] cantusNotes notes = notes.filter (fun k => k.tmod 10 == 1)) ∧
    (∀ (rnd : Nat → Nat) (notes : List Int) (totalNotes : Int) (s : Nat) (c : List Int)
      (s1 : Nat), 1 ≤ totalNotes →
      writeCantusMelody rnd notes totalNotes s = some (c, s1) → (c.getD 0 0).tmod 10 = 1) ∧
    (∀ (rnd : Nat → Nat) (g depth s : Nat) (notes cantusNotes : List Int) (r : SearchResult),
      1 ≤ cantusNotes.length → (∀ x ∈ notes, ValidPitch x) →
      backtrackFillCtrptMelody rnd g notes cantusNotes depth [] s = some r →
      back r.buffer ≠ -1 → (r.buffer.getD 0 0).tmod 10 = 1) := by
  refine ⟨?_, ?_, ?_, ?_⟩
  · intro notes prev0 prev1 totalNotes
    unfold getAllowedCantusNotes
    rw [if_pos rfl]
  · intro notes cantusNotes
    unfold getAllowedCtrptNotes
    rw [if_pos List.length_nil]
  · intro rnd notes totalNotes s c s1 ht h
    exact writeCantusMelody_first rnd notes totalNotes s c s1 ht h
  · intro rnd g depth s notes cantusNotes r hL hvalid hrun hlast
    obtain ⟨_, hall⟩ := success_spec rnd g depth s notes cantusNotes r hL hvalid hrun hlast
    have hk := hall 0 (by omega)
    unfold getAllowedCtrptNotes at hk
    rw [if_pos (by simp)] at hk
    simpa using (List.mem_filter.mp hk).2

theorem first_note_tonic_witness :
    (([41, 35, 37, 41] : List Int).getD 0 0).tmod 10 = 1 ∧
      (([41, 36, 42, 41] : List Int).getD 0 0).tmod 10 = 1 :=
  ⟨first_note_tonic.2.2.1 (streamOf [0, 0, 0, 0, 1, 2, 1, 0]) altoC 4 0 [41, 35, 37, 41] 4
      (by decide) (by decide),
    first_note_tonic.2.2.2 (streamOf [0, 0, 0, 0, 1, 2, 1, 0]) 1 5 4 tenorC [41, 35, 37, 41]
      ⟨[41, 36, 42, 41], [41, 36, 42, 41], 8⟩ (by decide) (by decide) (by decide) (by decide)⟩

/-- C10 (last note is the tonic): for every total ≥ 1 the last element of a cantus generated
without stall has degree digit 1, and for every cantus of length L ≥ 1 the last element of a
successful counterpoint has degree digit 1. -/
theorem last_note_tonic :
    (∀ (rnd : Nat → Nat) (notes : List Int) (totalNotes : Int) (s : Nat) (c : List Int)
      (s1 : Nat), 1 ≤ totalNotes →
      writeCantusMelody rnd notes totalNotes s = some (c, s1) → (back c).tmod 10 = 1) ∧
    (∀ (rnd : Nat → Nat) (g depth s : Nat) (notes cantusNotes : List Int) (r : SearchResult),
      1 ≤ cantusNotes.length → cantusNotes.length < 2 ^ 64 → (∀ x ∈ notes, ValidPitch x) →
      backtrackFillCtrptMelody rnd g notes cantusNotes depth [] s = some r →
      back r.buffer ≠ -1 → (back r.buffer).tmod 10 = 1) := by
  refine ⟨?_, ?_⟩
  · intro rnd notes totalNotes s c s1 ht h
    exact writeCantusLoop_last rnd notes totalNotes _ _ _ _ _ _ _ _ ht h
  · intro rnd g depth s notes cantusNotes r hL hL2 hvalid hrun hlast
    exact success_last_tonic rnd g depth s notes cantusNotes r hL hL2 hvalid hrun hlast

theorem last_note_tonic_witness :
    (back [41, 35, 37, 41]).tmod 10 = 1 ∧ (back [41, 36, 42, 41]).tmod 10 = 1 :=
  ⟨last_note_tonic.1 (streamOf [0, 0, 0, 0, 1, 2, 1, 0]) altoC 4 0 [41, 35, 37, 41] 4
      (by decide) (by decide),
    last_note_tonic.2 (streamOf [0, 0, 0, 0, 1, 2, 1, 0]) 1 5 4 tenorC [41, 35, 37, 41]
      ⟨[41, 36, 42, 41], [41, 36, 42, 41], 8⟩ (by decide) (by decide) (by decide) (by decide)
      (by decide)⟩

theorem mem_penultimate (c cantusNotes notes : List Int) (x : Int) (h1 : 1 ≤ c.length)
    (h2 : c.length + 2 = cantusNotes.length) (hL : cantusNotes.length < 2 ^ 64)
    (hx : x ∈ getAllowedCtrptNotes c cantusNotes notes) :
    ((endAt cantusNotes 2).tmod 10 = 2 → x.tmod 10 = 7) ∧
      ((endAt cantusNotes 2).tmod 10 ≠ 2 → x.tmod 10 = 2) := by
  have e2 := sizeSub_of_le cantusNotes.length 2 (by omega) hL
  unfold getAllowedCtrptNotes at hx
  rw [if_neg (by omega), if_pos (by omega)] at hx
  constructor
  · intro h
    rw [if_pos h] at hx
    simpa using (List.mem_filter.mp hx).2
  · intro h
    rw [if_neg h] at hx
    simpa using (List.mem_filter.mp hx).2

/-- C11 (counterexample): for the generated cantus 41 35 37 41 the search can return
41 36 42 41, whose last note 41 is one scale step below its penultimate note 42. -/
theorem final_step_counterexample :
    backtrackFillCtrptMelody (streamOf [0, 0, 0, 0, 1, 2, 1, 0]) 1 tenorC [41, 35, 37, 41] 5 []
        4 = some ⟨[41, 36, 42, 41], [41, 36, 42, 41], 8⟩ ∧
      back [41, 36, 42, 41] ≠ -1 ∧
      ¬ (scaleStep ([41, 36, 42, 41].getD 3 0) = scaleStep ([41, 36, 42, 41].getD 2 0) + 1) := by
  decide

/-- C11 (amended): for a cantus of length L ≥ 3 the last note of a successful counterpoint is
exactly one scale step away from its penultimate note: one step above when the penultimate
cantus note has degree 2 (the counterpoint then comes from degree 7), one step below
otherwise (the counterpoint then comes from degree 2). -/
theorem final_step (rnd : Nat → Nat) (g depth s : Nat) (notes cantusNotes : List Int)
    (r : SearchResult) (hvalid : ∀ x ∈ notes, ValidPitch x) (hL3 : 3 ≤ cantusNotes.length)
    (hL : cantusNotes.length < 2 ^ 64)
    (hrun : backtrackFillCtrptMelody rnd g notes cantusNotes depth [] s = some r)
    (hlast : back r.buffer ≠ -1) :
    ((cantusNotes.getD (cantusNotes.length - 2) 0).tmod 10 = 2 →
      scaleStep (r.buffer.getD (cantusNotes.length - 1) 0) =
        scaleStep (r.buffer.getD (cantusNotes.length - 2) 0) + 1) ∧
    ((cantusNotes.getD (cantusNotes.length - 2) 0).tmod 10 ≠ 2 →
      scaleStep (r.buffer.getD (cantusNotes.length - 1) 0) =
        scaleStep (r.buffer.getD (cantusNotes.length - 2) 0) - 1) := by
  obtain ⟨hlen, hall⟩ := success_spec rnd g depth s notes cantusNotes r (by omega) hvalid hrun hlast
  have hk1 := hall (cantusNotes.length - 1) (by omega)
  have hk2 := hall (cantusNotes.length - 2) (by omega)
  have hl1 : (r.buffer.take (cantusNotes.length - 1)).length = cantusNotes.length - 1 := by
    rw [List.length_take]; omega
  have hl2 : (r.buffer.take (cantusNotes.length - 2)).length = cantusNotes.length - 2 := by
    rw [List.length_take]; omega
  obtain ⟨hdeg, hint⟩ := mem_final _ cantusNotes notes _ (by omega) (by omega) hL hk1
  have hpen := mem_penultimate _ cantusNotes notes _ (by omega) (by omega) hL hk2
  have eb := endAt_take r.buffer (cantusNotes.length - 1) 1 (by omega) (by omega) (by omega)
  rw [show cantusNotes.length - 1 - 1 = cantusNotes.length - 2 by omega] at eb
  unfold back at hint
  rw [eb] at hint
  unfold getInterval at hint
  unfold scaleStep
  unfold endAt at hpen
  constructor
  · intro h
    have h7 := hpen.1 h
    omega
  · intro h
    have h2 := hpen.2 h
    omega

theorem final_step_witness :
    backtrackFillCtrptMelody (streamOf [0, 5, 1, 0, 1, 1, 0, 0]) 1 tenorC [41, 43, 42, 41] 5 []
        4 = some ⟨[41, 34, 37, 41], [41, 34, 37, 41], 8⟩ ∧
      ((([41, 43, 42, 41] : List Int).getD ([41, 43, 42, 41].length - 2) 0).tmod 10 = 2 →
        scaleStep (([41, 34, 37, 41] : List Int).getD ([41, 43, 42, 41].length - 1) 0) =
          scaleStep (([41, 34, 37, 41] : List Int).getD ([41, 43, 42, 41].length - 2) 0) + 1) ∧
      ((([41, 43, 42, 41] : List Int).getD ([41, 43, 42, 41].length - 2) 0).tmod 10 ≠ 2 →
        scaleStep (([41, 34, 37, 41] : List Int).getD ([41, 43, 42, 41].length - 1) 0) =
          scaleStep (([41, 34, 37, 41] : List Int).getD ([41, 43, 42, 41].length - 2) 0) - 1) :=
  ⟨by decide, final_step (streamOf [0, 5, 1, 0, 1, 1, 0, 0]) 1 5 4 tenorC [41, 43, 42, 41]
    ⟨[41, 34, 37, 41], [41, 34, 37, 41], 8⟩ (by decide) (by decide) (by decide) (by decide)
    (by decide)⟩

theorem getAllowedCtrptNotes_nil (cantusNotes notes : List Int) :
    getAllowedCtrptNotes [] cantusNotes notes = notes.filter (fun k => k.tmod 10 == 1) := by
  unfold getAllowedCtrptNotes
  rw [if_pos List.length_nil]

theorem getAllowedCtrptNotes_penultimate (c cantusNotes notes : List Int) (h1 : 1 ≤ c.length)
    (h2 : c.length + 2 = cantusNotes.length) (hL : cantusNotes.length < 2 ^ 64) :
    getAllowedCtrptNotes c cantusNotes notes =
      if (endAt cantusNotes 2).tmod 10 = 2 then notes.filter (fun k => k.tmod 10 == 7)
      else notes.filter (fun k => k.tmod 10 == 2) := by
  have e2 := sizeSub_of_le cantusNotes.length 2 (by omega) hL
  unfold getAllowedCtrptNotes
  rw [if_neg (by omega), if_pos (by omega)]

theorem getAllowedCtrptNotes_final (c cantusNotes notes : List Int) (h1 : 1 ≤ c.length)
    (h2 : c.length + 1 = cantusNotes.length) (hL : cantusNotes.length < 2 ^ 64) :
    getAllowedCtrptNotes c cantusNotes notes =
      notes.filter (fun k => k.tmod 10 == 1 && getInterval (back c) k == 2) := by
  have e2 := sizeSub_of_le cantusNotes.length 2 (by omega) hL
  have e1 := sizeSub_of_le cantusNotes.length 1 (by omega) hL
  unfold getAllowedCtrptNotes
  rw [if_neg (by omega), if_neg (by omega), if_pos (by omega)]

theorem completes_length_three (cantusNotes : List Int) (h3 : cantusNotes.length = 3) :
    ∃ t, Completes cantusNotes tenorC [] t := by
  have hL : cantusNotes.length < 2 ^ 64 := by rw [h3]; decide
  by_cases hdeg : (endAt cantusNotes 2).tmod 10 = 2
  · refine ⟨[31, 37, 41], h3.symm, ⟨_, rfl⟩, ?_⟩
    intro k _ hk
    have hk3 : k < 3 := hk
    interval_cases k
    · rw [show List.take 0 [31, 37, 41] = ([] : List Int) from rfl, getAllowedCtrptNotes_nil]
      decide
    · rw [show List.take 1 [31, 37, 41] = ([31] : List Int) from rfl,
        getAllowedCtrptNotes_penultimate [31] cantusNotes tenorC (by decide) (by rw [h3]; rfl) hL,
        if_pos hdeg]
      decide
    · rw [show List.take 2 [31, 37, 41] = ([31, 37] : List Int) from rfl,
        getAllowedCtrptNotes_final [31, 37] cantusNotes tenorC (by decide) (by rw [h3]; rfl) hL]
      decide
  · refine ⟨[31, 32, 31], h3.symm, ⟨_, rfl⟩, ?_⟩
    intro k _ hk
    have hk3 : k < 3 := hk
    interval_cases k
    · rw [show List.take 0 [31, 32, 31] = ([] : List Int) from rfl, getAllowedCtrptNotes_nil]
      decide
    · rw [show List.take 1 [31, 32, 31] = ([31] : List Int) from rfl,
        getAllowedCtrptNotes_penultimate [31] cantusNotes tenorC (by decide) (by rw [h3]; rfl) hL,
        if_neg hdeg]
      decide
    · rw [show List.take 2 [31, 32, 31] = ([31, 32] : List Int) from rfl,
        getAllowedCtrptNotes_final [31, 32] cantusNotes tenorC (by decide) (by rw [h3]; rfl) hL]
      decide

/-- C12 (counterexample): for the cantus 41 44 47 and the key-of-C lower table the search
returns the successful counterpoint 31 42 41, not a sentinel-terminated result. -/
theorem exhaustion_counterexample :
    backtrackFillCtrptMelody (fun n => n) 1 tenorC [41, 44, 47] 4 [] 0 =
        some ⟨[31, 42, 41], [31, 42, 41], 3⟩ ∧
      getInterval 41 44 = 4 ∧ getInterval 44 47 = 4 ∧ back [31, 42, 41] ≠ -1 := by
  decide

theorem backtrack_done (rnd : Nat → Nat) (g : Nat) (notes cantusNotes : List Int) (d : Nat)
    (p : List Int) (s : Nat) (h : p.length = cantusNotes.length) :
    backtrackFillCtrptMelody rnd g notes cantusNotes (d + 1) p s = some ⟨p, p, s⟩ := by
  unfold backtrackFillCtrptMelody
  rw [if_pos h]

theorem tryNotes_first (recur : List Int → Nat → Option SearchResult) (rnd : Nat → Nat)
    (g n : Nat) (allowed p : List Int) (s : Nat) (hA : allowed ≠ [])
    (hrec : ∀ x, x ∈ allowed → ∀ s1, ∃ r, recur (p ++ [x]) s1 = some r ∧ back r.buffer ≠ -1) :
    ∃ r, tryNotes recur rnd (g + 1) allowed (n + 1) [] p s = some r ∧ back r.buffer ≠ -1 := by
  have hlen : ¬ allowed.length = 0 := fun h => hA (List.length_eq_zero.mp h)
  obtain ⟨r, hr, hb⟩ := hrec _ (randomNoteKey_mem (rnd s) allowed hlen) (s + 1)
  refine ⟨r, ?_, hb⟩
  have hd : drawUnvisited rnd allowed [] (g + 1) s =
      some (randomNoteKey (rnd s) allowed, s + 1) := by
    unfold drawUnvisited
    rw [if_neg (by simp)]
  unfold tryNotes
  rw [if_pos (by simp only [List.length_nil]; omega), hd]
  simp only
  rw [hr]
  simp only
  rw [if_pos hb]

theorem backtrack_first (rnd : Nat → Nat) (g d : Nat) (notes cantusNotes p : List Int) (s : Nat)
    (hlen : p.length ≠ cantusNotes.length)
    (hA : getAllowedCtrptNotes p cantusNotes notes ≠ [])
    (hrec : ∀ x, x ∈ getAllowedCtrptNotes p cantusNotes notes → ∀ s1,
      ∃ r, backtrackFillCtrptMelody rnd (g + 1) notes cantusNotes d (p ++ [x]) s1 = some r ∧
        back r.buffer ≠ -1) :
    ∃ r, backtrackFillCtrptMelody rnd (g + 1) notes cantusNotes (d + 1) p s = some r ∧
      back r.buffer ≠ -1 := by
  have h0 : ¬ (getAllowedCtrptNotes p cantusNotes notes).length = 0 :=
    fun h => hA (List.length_eq_zero.mp h)
  obtain ⟨n, hn⟩ : ∃ n, (getAllowedCtrptNotes p cantusNotes notes).length = n + 1 :=
    ⟨(getAllowedCtrptNotes p cantusNotes notes).length - 1, by omega⟩
  unfold backtrackFillCtrptMelody
  rw [if_neg hlen, if_neg h0, hn]
  exact tryNotes_first _ rnd g n _ p s hA hrec

theorem first_try_length_three (rnd : Nat → Nat) (g s : Nat) (cantusNotes : List Int)
    (h3 : cantusNotes.length = 3) :
    ∃ r, backtrackFillCtrptMelody rnd (g + 1) tenorC cantusNotes 4 [] s = some r ∧
      back r.buffer ≠ -1 := by
  have hL : cantusNotes.length < 2 ^ 64 := by rw [h3]; decide
  have hm1 : (-1 : Int) ∉ tenorC := by decide
  have f7 : tenorC.filter (fun k => k.tmod 10 == 7) = [37, 47] := by decide
  have f2 : tenorC.filter (fun k => k.tmod 10 == 2) = [32, 42] := by decide
  refine backtrack_first rnd g 3 tenorC cantusNotes [] s (by rw [h3]; decide)
    (by rw [getAllowedCtrptNotes_nil]; decide) ?_
  intro x _ s1
  have hx1 : ([] ++ [x] : List Int).length = 1 := rfl
  have hpen := getAllowedCtrptNotes_penultimate ([] ++ [x]) cantusNotes tenorC (by rw [hx1])
    (by rw [hx1, h3]) hL
  have hy4 : ∀ y, y ∈ getAllowedCtrptNotes ([] ++ [x]) cantusNotes tenorC →
      y = 37 ∨ y = 47 ∨ y = 32 ∨ y = 42 := by
    intro y hy
    rw [hpen] at hy
    split at hy
    · rw [f7] at hy
      simp at hy
      omega
    · rw [f2] at hy
      simp at hy
      omega
  refine backtrack_first rnd g 2 tenorC cantusNotes ([] ++ [x]) s1 (by rw [hx1, h3]; decide)
    (by rw [hpen]; split <;> decide) ?_
  intro y hy s2
  have hxy : ([] ++ [x] ++ [y] : List Int).length = 2 := rfl
  have hfin := getAllowedCtrptNotes_final ([] ++ [x] ++ [y]) cantusNotes tenorC (by rw [hxy]; decide)
    (by rw [hxy, h3]) hL
  rw [back_append_singleton] at hfin
  refine backtrack_first rnd g 1 tenorC cantusNotes ([] ++ [x] ++ [y]) s2
    (by rw [hxy, h3]; decide)
    (by
      rw [hfin]
      rcases hy4 y hy with h | h | h | h <;> subst h <;> decide) ?_
  intro z hz s3
  refine ⟨_, backtrack_done rnd (g + 1) tenorC cantusNotes 0 _ s3 (by rw [h3]; rfl), ?_⟩
  rw [back_append_singleton]
  intro hz1
  exact hm1 (hz1 ▸ (getAllowedCtrptNotes_sublist _ cantusNotes tenorC).subset hz)

/-- C12 (amended): for every cantus of length 3, in particular one whose notes are
successively a fourth apart such as 41 44 47, and the key-of-C lower table, the search
started from the empty sequence terminates for every random stream (recursion depth 4, one
draw per rejection loop) and returns a successful counterpoint of length 3; no run returns a
sentinel-terminated result. -/
theorem exhaustion_scenario (rnd : Nat → Nat) (g s : Nat) (cantusNotes : List Int)
    (h3 : cantusNotes.length = 3) (hg : 1 ≤ g) :
    (∃ r, backtrackFillCtrptMelody rnd g tenorC cantusNotes 4 [] s = some r ∧
      back r.buffer ≠ -1 ∧ r.buffer.length = 3) ∧
    ∀ (rnd1 : Nat → Nat) (g1 d1 s1 : Nat) (r1 : SearchResult),
      backtrackFillCtrptMelody rnd1 g1 tenorC cantusNotes d1 [] s1 = some r1 →
      back r1.buffer ≠ -1 ∧ r1.buffer.length = 3 := by
  have hm1 : (-1 : Int) ∉ tenorC := by decide
  have hpre : ([] : List Int).length < cantusNotes.length ∨
      (([] : List Int).length = cantusNotes.length ∧ back [] ≠ -1) := Or.inl (by rw [h3]; decide)
  have hall : ∀ (rnd1 : Nat → Nat) (g1 d1 s1 : Nat) (r1 : SearchResult),
      backtrackFillCtrptMelody rnd1 g1 tenorC cantusNotes d1 [] s1 = some r1 →
      back r1.buffer ≠ -1 ∧ r1.buffer.length = 3 := by
    intro rnd1 g1 d1 s1 r1 hrun
    rcases backtrack_spec rnd1 g1 tenorC cantusNotes hm1 d1 [] s1 r1 hpre hrun with
      ⟨h1, _, h2, _, _⟩ | ⟨_, _, h⟩
    · exact ⟨h1, by rw [h2, h3]⟩
    · exact absurd (completes_length_three cantusNotes h3) h
  refine ⟨?_, hall⟩
  obtain ⟨g0, rfl⟩ : ∃ g0, g = g0 + 1 := ⟨g - 1, by omega⟩
  obtain ⟨r, hr, hb⟩ := first_try_length_three rnd g0 s cantusNotes h3
  exact ⟨r, hr, hb, (hall rnd (g0 + 1) 4 s r hr).2⟩

theorem exhaustion_scenario_witness :
    (∃ r, backtrackFillCtrptMelody (fun _ => 0) 1 tenorC [41, 44, 47] 4 [] 0 = some r ∧
      back r.buffer ≠ -1 ∧ r.buffer.length = 3) ∧
    ∀ (rnd1 : Nat → Nat) (g1 d1 s1 : Nat) (r1 : SearchResult),
      backtrackFillCtrptMelody rnd1 g1 tenorC [41, 44, 47] d1 [] s1 = some r1 →
      back r1.buffer ≠ -1 ∧ r1.buffer.length = 3 :=
  exhaustion_scenario (fun _ => 0) 1 0 [41, 44, 47] (by decide) (by decide)

theorem reduceInterval_range_aux : ∀ (n : Nat) (x : Int), 1 ≤ x → x ≤ (n : Int) →
    1 ≤ reduceInterval x ∧ reduceInterval x ≤ 7 := by
  intro n
  induction n with
  | zero => intro x h1 h2; omega
  | succ n ih =>
    intro x h1 h2
    rw [reduceInterval_eq]
    by_cases hx : x ≤ 7
    · rw [if_pos hx]; exact ⟨h1, hx⟩
    · rw [if_neg hx]
      exact ih (x - 7) (by omega) (by push_cast at h2; omega)

theorem reduceInterval_range (x : Int) (hx : 1 ≤ x) :
    1 ≤ reduceInterval x ∧ reduceInterval x ≤ 7 :=
  reduceInterval_range_aux x.toNat x hx (by omega)

/-- C13: for every integer x ≥ 1, `reduceInterval x` lies in 1..7 and reducing it again
changes nothing. -/
theorem reduceInterval_idempotent (x : Int) (hx : 1 ≤ x) :
    (1 ≤ reduceInterval x ∧ reduceInterval x ≤ 7) ∧
      reduceInterval (reduceInterval x) = reduceInterval x := by
  have h := reduceInterval_range x hx
  refine ⟨h, ?_⟩
  rw [reduceInterval_eq (reduceInterval x), if_pos h.2]

theorem reduceInterval_idempotent_witness :
    (1 ≤ reduceInterval 10 ∧ reduceInterval 10 ≤ 7) ∧
      reduceInterval (reduceInterval 10) = reduceInterval 10 :=
  reduceInterval_idempotent 10 (by decide)

/-- C14: the interval from any encoded pitch to itself is 1. -/
theorem getInterval_refl (a : Int) : getInterval a a = 1 := by
  unfold getInterval
  rw [sub_self]
  rfl

theorem strCompare_eq_zero : ∀ (a b : List Char), strCompare a b = 0 ↔ a = b := by
  intro a
  induction a with
  | nil =>
    intro b
    cases b with
    | nil => simp [strCompare]
    | cons y ys => simp [strCompare]
  | cons x xs ih =>
    intro b
    cases b with
    | nil => simp [strCompare]
    | cons y ys =>
      unfold strCompare
      by_cases h1 : x.toNat < y.toNat
      · rw [if_pos h1]
        have hne : x ≠ y := by rintro rfl; omega
        simp [hne]
      · rw [if_neg h1]
        by_cases h2 : y.toNat < x.toNat
        · rw [if_pos h2]
          have hne : x ≠ y := by rintro rfl; omega
          simp [hne]
        · rw [if_neg h2, ih ys]
          have hxy : x = y := by
            apply Char.ext
            apply UInt32.ext
            have : x.toNat = y.toNat := by omega
            exact this
          simp [hxy]

theorem notePosLoop_not_mem (note : List Char) : ∀ (musicKey : List (List Char)) (j : Nat),
    note ∉ musicKey → notePosLoop note musicKey j = -1 := by
  intro musicKey
  induction musicKey with
  | nil => intro j _; rfl
  | cons k rest ih =>
    intro j hmem
    unfold notePosLoop
    have hk : note ≠ k := fun h => hmem (h ▸ List.mem_cons_self _ _)
    rw [if_neg (fun h => hk ((strCompare_eq_zero note k).mp h))]
    exact ih (j + 1) (fun h => hmem (List.mem_cons_of_mem k h))

theorem notePosLoop_at (note : List Char) : ∀ (musicKey : List (List Char)) (j i : Nat),
    musicKey.Nodup → i < musicKey.length → musicKey.getD i [] = note →
    notePosLoop note musicKey j = ((j + i + 1 : Nat) : Int) := by
  intro musicKey
  induction musicKey with
  | nil => intro j i _ hi _; simp at hi
  | cons k rest ih =>
    intro j i hnd hi hget
    unfold notePosLoop
    cases i with
    | zero =>
      have hk : k = note := by simpa using hget
      rw [if_pos ((strCompare_eq_zero note k).mpr hk.symm)]
    | succ i =>
      have hi2 : i < rest.length := by simpa using hi
      have hget2 : rest.getD i [] = note := by simpa using hget
      have hmem : note ∈ rest := by
        rw [← hget2, List.getD_eq_getElem _ _ hi2]
        exact List.getElem_mem _
      have hk : note ≠ k := by
        intro h
        exact (List.nodup_cons.mp hnd).1 (h ▸ hmem)
      rw [if_neg (fun h => hk ((strCompare_eq_zero note k).mp h)),
        ih (j + 1) i (List.nodup_cons.mp hnd).2 hi2 hget2]
      congr 1
      omega

theorem digit_code (d : Nat) (hd : d ≤ 9) : ((Char.ofNat (48 + d)).toNat : Int) - 48 = d := by
  interval_cases d <;> rfl

/-- C15: for a key of distinct note names and an octave digit d in 0..9, `notePos` on a name
followed by that digit returns -1 exactly when the name is not in the key; when the name
stands at index i of the key, so that its 1-based position is p = i + 1, it returns
10*d + p if p ≥ anchor and 10*(d+1) + p if p < anchor. -/
theorem notePos_spec (musicKey : List (List Char)) (octIndicator : Int) (name : List Char)
    (d : Nat) (hd : d ≤ 9) (hnd : musicKey.Nodup) :
    (notePos (name ++ [Char.ofNat (48 + d)]) musicKey octIndicator = -1 ↔ name ∉ musicKey) ∧
    (∀ i, i < musicKey.length → musicKey.getD i [] = name →
      notePos (name ++ [Char.ofNat (48 + d)]) musicKey octIndicator =
        if octIndicator ≤ ((i + 1 : Nat) : Int) then 10 * (d : Int) + ((i + 1 : Nat) : Int)
        else 10 * ((d : Int) + 1) + ((i + 1 : Nat) : Int)) := by
  have hdig := digit_code d hd
  have hform : ∀ i, i < musicKey.length → musicKey.getD i [] = name →
      notePos (name ++ [Char.ofNat (48 + d)]) musicKey octIndicator =
        if octIndicator ≤ ((i + 1 : Nat) : Int) then 10 * (d : Int) + ((i + 1 : Nat) : Int)
        else 10 * ((d : Int) + 1) + ((i + 1 : Nat) : Int) := by
    intro i hi hget
    unfold notePos
    rw [List.dropLast_concat, List.getLastD_concat, notePosLoop_at name musicKey 0 i hnd hi hget,
      hdig, if_neg (by omega)]
    simp only [Nat.zero_add]
  refine ⟨?_, hform⟩
  constructor
  · intro h hmem
    obtain ⟨i, hi, hget⟩ := List.getElem_of_mem hmem
    rw [hform i hi (by rw [List.getD_eq_getElem _ _ hi]; exact hget)] at h
    split at h <;> omega
  · intro hmem
    unfold notePos
    rw [List.dropLast_concat, notePosLoop_not_mem name musicKey 0 hmem]
    rfl

theorem notePos_spec_witness :
    (notePos (['F', '#'] ++ [Char.ofNat (48 + 4)]) keyD 7 = -1 ↔ ['F', '#'] ∉ keyD) ∧
    (∀ i, i < keyD.length → keyD.getD i [] = ['F', '#'] →
      notePos (['F', '#'] ++ [Char.ofNat (48 + 4)]) keyD 7 =
        if (7 : Int) ≤ ((i + 1 : Nat) : Int) then 10 * ((4 : Nat) : Int) + ((i + 1 : Nat) : Int)
        else 10 * (((4 : Nat) : Int) + 1) + ((i + 1 : Nat) : Int)) :=
  notePos_spec keyD 7 ['F', '#'] 4 (by decide) (by decide)

/-- C16 (failing input): for the seven-note key of C sharp major the octave indicator
returned is 8, which is neither -1 nor a scale degree 1..7. -/
theorem octaveIndicator_failing_input :
    keyCSharp.length = 7 ∧ getOctaveIndicator keyCSharp = 8 := by
  decide

/-- C17 (failing input): with one counterpoint note placed (k = 1 < L - 2), the candidates
for position 1 include 34 against the cantus note 43 at position 1 (interval 7, dissonant),
and 36 against the cantus note 35 at position 1 (not below it). -/
theorem general_rule_failing_input :
    getAllowedCtrptNotes [41] [41, 43, 42, 41] tenorC = [33, 34, 36] ∧
      isConsonant (getInterval ([41, 43, 42, 41].getD 1 0) 34) = false ∧
      getAllowedCtrptNotes [41] [41, 35, 37, 41] tenorC = [33, 34, 36] ∧
      ¬ ((36 : Int) < [41, 35, 37, 41].getD 1 0) := by
  decide

theorem eraseAll_filter_not (m : List Int) (f : Int → Bool) :
    eraseAll m (m.filter f) = m.filter (fun k => !f k) := by
  rw [eraseAll_filter]
  apply List.filter_congr
  intro x hx
  by_cases hf : f x = true
  · have : x ∈ m.filter f := List.mem_filter.mpr ⟨hx, hf⟩
    simp [this, hf]
  · have : x ∉ m.filter f := fun h => hf (List.mem_filter.mp h).2
    simp [this, hf]

/-- C18 (counterexample): after the upward leap 31 to 41, `removeOppositeLeaps` keeps the
candidate 43, which moves up from 41, the direction of the leap. -/
theorem removeOppositeLeaps_counterexample :
    3 ≤ getInterval 41 31 ∧
      removeOppositeLeaps [36, 37, 41, 43, 45] [31, 41] = [37, 41, 43, 45] ∧
      Int.sign (43 - 41) = Int.sign (41 - 31) := by
  decide

/-- C18 (amended): for a history of at least 2 notes whose most recent interval is ≥ 3, the
candidates left by `removeOppositeLeaps` are exactly those that stay within a step of the
last note (interval < 3) or move in the direction of that leap (`c - last > 0` exactly when
`last - secondLast > 0`): leaps against the direction of the previous leap are removed. -/
theorem removeOppositeLeaps_spec (allowed history : List Int) (c : Int)
    (h2 : 2 ≤ history.length)
    (hleap : 3 ≤ getInterval (history.getD (history.length - 1) 0)
      (history.getD (history.length - 2) 0)) :
    c ∈ removeOppositeLeaps allowed history ↔
      c ∈ allowed ∧
        (getInterval c (history.getD (history.length - 1) 0) < 3 ∨
          (0 < c - history.getD (history.length - 1) 0 ↔
            0 < history.getD (history.length - 1) 0 - history.getD (history.length - 2) 0)) := by
  have _hlen := h2
  have hleap2 : 3 ≤ getInterval (endAt history 1) (endAt history 2) := hleap
  unfold removeOppositeLeaps
  by_cases h0 : allowed.length = 0
  · rw [if_pos h0, List.length_eq_zero.mp h0]
    simp
  · rw [if_neg h0, if_pos hleap2, eraseAll_filter_not, List.mem_filter]
    unfold back endAt
    apply and_congr_right
    intro _
    by_cases hi : 3 ≤ getInterval c (history.getD (history.length - 1) 0)
    · by_cases hd1 : 0 < c - history.getD (history.length - 1) 0 <;>
        by_cases hd2 : 0 < history.getD (history.length - 1) 0 -
          history.getD (history.length - 2) 0 <;>
        simp [hi, hd1, hd2]
    · have hlt : getInterval c (history.getD (history.length - 1) 0) < 3 := by omega
      simp [hi, hlt]

theorem removeOppositeLeaps_spec_witness :
    (43 : Int) ∈ removeOppositeLeaps [36, 37, 41, 43, 45] [31, 41] ↔
      (43 : Int) ∈ [36, 37, 41, 43, 45] ∧
        (getInterval 43 (([31, 41] : List Int).getD ([31, 41].length - 1) 0) < 3 ∨
          (0 < 43 - ([31, 41] : List Int).getD ([31, 41].length - 1) 0 ↔
            0 < ([31, 41] : List Int).getD ([31, 41].length - 1) 0 -
              ([31, 41] : List Int).getD ([31, 41].length - 2) 0)) :=
  removeOppositeLeaps_spec [36, 37, 41, 43, 45] [31, 41] 43 (by decide) (by decide)

/-- C19: for a history of at least 3 notes, `remove3xLeap` returns exactly the candidates
within a step of the last note (interval < 3) when the last two melodic intervals of the
history are both ≥ 3, and the candidate set unchanged otherwise. -/
theorem remove3xLeap_spec (allowed history : List Int) (h3 : 3 ≤ history.length) :
    remove3xLeap allowed history =
      if 3 ≤ getInterval (history.getD (history.length - 1) 0)
            (history.getD (history.length - 2) 0) ∧
          3 ≤ getInterval (history.getD (history.length - 2) 0)
            (history.getD (history.length - 3) 0) then
        allowed.filter (fun c => decide (getInterval c (history.getD (history.length - 1) 0) < 3))
      else allowed := by
  have _hlen := h3
  unfold remove3xLeap back endAt
  by_cases h0 : allowed.length = 0
  · rw [if_pos h0, List.length_eq_zero.mp h0]
    simp
  · rw [if_neg h0]
    split
    · rw [eraseAll_filter_not]
      apply List.filter_congr
      intro x _
      show (!decide (3 ≤ getInterval x (history.getD (history.length - 1) 0))) =
        decide (getInterval x (history.getD (history.length - 1) 0) < 3)
      generalize getInterval x (history.getD (history.length - 1) 0) = I
      by_cases hi : 3 ≤ I
      · have hlt : ¬ I < 3 := by omega
        simp [hi, hlt]
      · have hlt : I < 3 := by omega
        simp [hi, hlt]
    · rfl

theorem remove3xLeap_spec_witness :
    remove3xLeap [33, 34, 35, 36, 37, 41] [31, 33, 35] =
      if 3 ≤ getInterval (([31, 33, 35] : List Int).getD ([31, 33, 35].length - 1) 0)
            (([31, 33, 35] : List Int).getD ([31, 33, 35].length - 2) 0) ∧
          3 ≤ getInterval (([31, 33, 35] : List Int).getD ([31, 33, 35].length - 2) 0)
            (([31, 33, 35] : List Int).getD ([31, 33, 35].length - 3) 0) then
        [33, 34, 35, 36, 37, 41].filter
          (fun c => decide (getInterval c (([31, 33, 35] : List Int).getD ([31, 33, 35].length - 1) 0) < 3))
      else [33, 34, 35, 36, 37, 41] :=
  remove3xLeap_spec [33, 34, 35, 36, 37, 41] [31, 33, 35] (by decide)

/-- C20: each of the five filters returns a sublist, in particular a subset, of the candidate
set it is given, and `getAllowedCtrptNotes` returns a sublist of the keys of the Note Table. -/
theorem filters_only_remove (allowed ctrptNotes cantusNotes notes : List Int) :
    (removeParallelFifths allowed ctrptNotes cantusNotes).Sublist allowed ∧
    (removeParallelEighths allowed ctrptNotes cantusNotes).Sublist allowed ∧
    (remove3xLeap allowed ctrptNotes).Sublist allowed ∧
    (removeOppositeLeaps allowed ctrptNotes).Sublist allowed ∧
    (remove4xIntervalOrNote allowed ctrptNotes cantusNotes).Sublist allowed ∧
    (getAllowedCtrptNotes ctrptNotes cantusNotes notes).Sublist notes ∧
    (∀ x, x ∈ getAllowedCtrptNotes ctrptNotes cantusNotes notes → x ∈ notes) :=
  ⟨removeParallelFifths_sublist _ _ _, removeParallelEighths_sublist _ _ _,
    remove3xLeap_sublist _ _, removeOppositeLeaps_sublist _ _,
    remove4xIntervalOrNote_sublist _ _ _, getAllowedCtrptNotes_sublist _ _ _,
    fun _ hx => (getAllowedCtrptNotes_sublist _ _ _).subset hx⟩

/-- C21 (cantus leap recovery): at an interior position (not 1, total-1 or total) with both
previous notes present and `getInterval prev0 prev1 ≥ 4`, `getAllowedCantusNotes` returns
exactly the table pitches one step (interval 2) from `prev0` on the side opposite the leap:
below `prev0` if `prev0 > prev1`, above it if `prev0 < prev1`. -/
theorem cantus_leap_recovery (notes : List Int) (prev0 prev1 noteNum totalNotes : Int)
    (hvalid : ∀ x ∈ notes, ValidPitch x)
    (h1 : noteNum ≠ 1) (h2 : noteNum ≠ totalNotes) (h3 : noteNum ≠ totalNotes - 1)
    (hprev : prev1 ≠ -1) (hleap : 4 ≤ getInterval prev0 prev1) :
    getAllowedCantusNotes notes prev0 prev1 noteNum totalNotes =
      notes.filter (fun p =>
        (decide (prev1 < prev0) && (getInterval prev0 p == 2 && decide (p < prev0))) ||
        (decide (prev0 < prev1) && (getInterval prev0 p == 2 && decide (prev0 < p)))) := by
  have _hv := hvalid
  unfold getAllowedCantusNotes
  rw [if_neg h1, if_neg h2, if_neg h3, if_neg hprev, if_neg (by omega), if_neg (by omega),
    if_pos hleap]
  apply List.filter_congr
  intro p _
  have e1 : decide (0 < prev0 - prev1) = decide (prev1 < prev0) := by
    apply decide_eq_decide.mpr; omega
  have e2 : decide (p - prev0 < 0) = decide (p < prev0) := by
    apply decide_eq_decide.mpr; omega
  have e3 : decide (prev0 - prev1 < 0) = decide (prev0 < prev1) := by
    apply decide_eq_decide.mpr; omega
  have e4 : decide (0 < p - prev0) = decide (prev0 < p) := by
    apply decide_eq_decide.mpr; omega
  rw [e1, e2, e3, e4]

theorem cantus_leap_recovery_witness :
    getAllowedCantusNotes altoC 35 41 3 8 =
      altoC.filter (fun p =>
        (decide ((41 : Int) < 35) && (getInterval 35 p == 2 && decide (p < 35))) ||
        (decide ((35 : Int) < 41) && (getInterval 35 p == 2 && decide (35 < p)))) :=
  cantus_leap_recovery altoC 35 41 3 8 (by decide) (by decide) (by decide) (by decide)
    (by decide) (by decide)

/-- C22 (the cantus generator can stall): with the upper-voice table of the key of F sharp,
which contains the tonic 51, and total = 4, the choices 51, 56, 57 are each taken from the
set `getAllowedCantusNotes` returns at their position, and at position 4 ≤ total the
returned set is empty, so `writeCantusMelody` calls `randomNoteKey` on an empty list. -/
theorem cantus_generator_stalls :
    ∃ (notes : List Int) (totalNotes : Int) (c1 c2 c3 : Int) (rnd : Nat → Nat),
      (∃ x ∈ notes, x.tmod 10 = 1) ∧ (∀ x ∈ notes, ValidPitch x) ∧ 4 ≤ totalNotes ∧
      c1 ∈ getAllowedCantusNotes notes (-1) (-1) 1 totalNotes ∧
      c2 ∈ getAllowedCantusNotes notes c1 (-1) 2 totalNotes ∧
      c3 ∈ getAllowedCantusNotes notes c2 c1 3 totalNotes ∧
      (4 : Int) ≤ totalNotes ∧ getAllowedCantusNotes notes c3 c2 4 totalNotes = [] ∧
      writeCantusMelody rnd notes totalNotes 0 = none :=
  ⟨altoFSharp, calcTotalNotes 1, 51, 56, 57, streamOf [0, 10, 1], by decide⟩

/-- C23 (what the general rule checks): for a partial counterpoint of length k with
1 ≤ k < L-2, every pitch c returned by `getAllowedCtrptNotes` is consonant with, at most a
twelfth from, and strictly below `cantus[k-1]`, the cantus note at the index of the last
counterpoint note already placed. -/
theorem general_rule_actual (ctrptNotes cantusNotes notes : List Int) (c : Int)
    (hk1 : 1 ≤ ctrptNotes.length) (hk2 : ctrptNotes.length + 2 < cantusNotes.length)
    (hL : cantusNotes.length < 2 ^ 64)
    (hc : c ∈ getAllowedCtrptNotes ctrptNotes cantusNotes notes) :
    isConsonant (getInterval (cantusNotes.getD (ctrptNotes.length - 1) 0) c) = true ∧
      getInterval (cantusNotes.getD (ctrptNotes.length - 1) 0) c ≤ 12 ∧
      c < cantusNotes.getD (ctrptNotes.length - 1) 0 := by
  have h := mem_generalCandidates ctrptNotes cantusNotes notes c
    (mem_general ctrptNotes cantusNotes notes c hk1 (by omega) hL hc)
  exact ⟨h.2.1, h.2.2.1, h.2.2.2.1⟩

theorem general_rule_actual_witness :
    isConsonant (getInterval (([41, 43, 42, 41] : List Int).getD (([41] : List Int).length - 1) 0)
        34) = true ∧
      getInterval (([41, 43, 42, 41] : List Int).getD (([41] : List Int).length - 1) 0) 34 ≤ 12 ∧
      34 < ([41, 43, 42, 41] : List Int).getD (([41] : List Int).length - 1) 0 :=
  general_rule_actual [41] [41, 43, 42, 41] tenorC 34 (by decide) (by decide) (by decide)
    (by decide)

theorem reduceInterval_add_mul (r : Int) (h1 : 1 ≤ r) (h7 : r ≤ 7) :
    ∀ m : Nat, reduceInterval (7 * (m : Int) + r) = r := by
  intro m
  induction m with
  | zero =>
    rw [reduceInterval_eq, if_pos (by simpa using h7)]
    simp
  | succ m ih =>
    rw [reduceInterval_eq, if_neg (by push_cast; omega)]
    rw [show 7 * ((m + 1 : Nat) : Int) + r - 7 = 7 * (m : Int) + r by push_cast; ring]
    exact ih

theorem reduceInterval_of_form (x r m : Int) (h1 : 1 ≤ r) (h7 : r ≤ 7) (hm : 0 ≤ m)
    (hx : x = 7 * m + r) : reduceInterval x = r := by
  obtain ⟨n, rfl⟩ := Int.eq_ofNat_of_zero_le hm
  rw [hx]
  exact reduceInterval_add_mul r h1 h7 n

theorem interval_tonic_tonic (a b : Int) (ha : a.tmod 10 = 1) (hb : b.tmod 10 = 1) :
    reduceInterval (getInterval a b) = 1 := by
  refine reduceInterval_of_form _ 1 (((a.tdiv 10) - (b.tdiv 10)).natAbs : Int) (by decide)
    (by decide) (by omega) ?_
  unfold getInterval
  omega

theorem interval_two_seven (a b : Int)
    (h : (a.tmod 10 = 2 ∧ b.tmod 10 = 7) ∨ (a.tmod 10 = 7 ∧ b.tmod 10 = 2)) :
    reduceInterval (getInterval a b) = 3 ∨ reduceInterval (getInterval a b) = 6 := by
  rcases h with ⟨ha, hb⟩ | ⟨ha, hb⟩
  · by_cases hq : b.tdiv 10 < a.tdiv 10
    · left
      refine reduceInterval_of_form _ 3 (a.tdiv 10 - b.tdiv 10 - 1) (by decide) (by decide)
        (by omega) ?_
      unfold getInterval
      omega
    · right
      refine reduceInterval_of_form _ 6 (b.tdiv 10 - a.tdiv 10) (by decide) (by decide)
        (by omega) ?_
      unfold getInterval
      omega
  · by_cases hq : a.tdiv 10 < b.tdiv 10
    · left
      refine reduceInterval_of_form _ 3 (b.tdiv 10 - a.tdiv 10 - 1) (by decide) (by decide)
        (by omega) ?_
      unfold getInterval
      omega
    · right
      refine reduceInterval_of_form _ 6 (a.tdiv 10 - b.tdiv 10) (by decide) (by decide)
        (by omega) ?_
      unfold getInterval
      omega

theorem isConsonant_of_reduce (x : Int)
    (h : reduceInterval x = 1 ∨ reduceInterval x = 3 ∨ reduceInterval x = 6) :
    isConsonant x = true := by
  unfold isConsonant
  rcases h with h | h | h <;> simp [h]

/-- C24 (cadence positions are consonant): for a cantus of length L ≥ 3 whose first and last
notes have degree 1 and whose penultimate note has degree 2 or 7, and a successful
counterpoint for it, the interval between cantus and counterpoint is consonant at positions
0, L-2 and L-1: it reduces to 1 at the first and the last position and to 3 or 6 at the
penultimate one. -/
theorem cadence_consonant (rnd : Nat → Nat) (g depth s : Nat) (notes cantusNotes : List Int)
    (r : SearchResult) (hvalid : ∀ x ∈ notes, ValidPitch x)
    (hcvalid : ∀ x ∈ cantusNotes, ValidPitch x) (hL3 : 3 ≤ cantusNotes.length)
    (hL : cantusNotes.length < 2 ^ 64)
    (hfirst : (cantusNotes.getD 0 0).tmod 10 = 1)
    (hlastc : (cantusNotes.getD (cantusNotes.length - 1) 0).tmod 10 = 1)
    (hpen : (cantusNotes.getD (cantusNotes.length - 2) 0).tmod 10 = 2 ∨
      (cantusNotes.getD (cantusNotes.length - 2) 0).tmod 10 = 7)
    (hrun : backtrackFillCtrptMelody rnd g notes cantusNotes depth [] s = some r)
    (hlast : back r.buffer ≠ -1) :
    (isConsonant (getInterval (cantusNotes.getD 0 0) (r.buffer.getD 0 0)) = true ∧
      isConsonant (getInterval (cantusNotes.getD (cantusNotes.length - 2) 0)
        (r.buffer.getD (cantusNotes.length - 2) 0)) = true ∧
      isConsonant (getInterval (cantusNotes.getD (cantusNotes.length - 1) 0)
        (r.buffer.getD (cantusNotes.length - 1) 0)) = true) ∧
    reduceInterval (getInterval (cantusNotes.getD 0 0) (r.buffer.getD 0 0)) = 1 ∧
    (reduceInterval (getInterval (cantusNotes.getD (cantusNotes.length - 2) 0)
        (r.buffer.getD (cantusNotes.length - 2) 0)) = 3 ∨
      reduceInterval (getInterval (cantusNotes.getD (cantusNotes.length - 2) 0)
        (r.buffer.getD (cantusNotes.length - 2) 0)) = 6) ∧
    reduceInterval (getInterval (cantusNotes.getD (cantusNotes.length - 1) 0)
      (r.buffer.getD (cantusNotes.length - 1) 0)) = 1 := by
  have _hc := hcvalid
  obtain ⟨hlen, hall⟩ := success_spec rnd g depth s notes cantusNotes r (by omega) hvalid hrun hlast
  have hk0 := hall 0 (by omega)
  have hk1 := hall (cantusNotes.length - 1) (by omega)
  have hk2 := hall (cantusNotes.length - 2) (by omega)
  have hl1 : (r.buffer.take (cantusNotes.length - 1)).length = cantusNotes.length - 1 := by
    rw [List.length_take]; omega
  have hl2 : (r.buffer.take (cantusNotes.length - 2)).length = cantusNotes.length - 2 := by
    rw [List.length_take]; omega
  have d0 : (r.buffer.getD 0 0).tmod 10 = 1 := by
    rw [show List.take 0 r.buffer = [] from rfl, getAllowedCtrptNotes_nil] at hk0
    simpa using (List.mem_filter.mp hk0).2
  have d1 := (mem_final _ cantusNotes notes _ (by omega) (by omega) hL hk1).1
  have d2 := mem_penultimate _ cantusNotes notes _ (by omega) (by omega) hL hk2
  unfold endAt at d2
  have r0 := interval_tonic_tonic _ _ hfirst d0
  have r1 := interval_tonic_tonic _ _ hlastc d1
  have r2 : reduceInterval (getInterval (cantusNotes.getD (cantusNotes.length - 2) 0)
        (r.buffer.getD (cantusNotes.length - 2) 0)) = 3 ∨
      reduceInterval (getInterval (cantusNotes.getD (cantusNotes.length - 2) 0)
        (r.buffer.getD (cantusNotes.length - 2) 0)) = 6 := by
    apply interval_two_seven
    rcases hpen with h | h
    · exact Or.inl ⟨h, d2.1 h⟩
    · exact Or.inr ⟨h, d2.2 (by omega)⟩
  refine ⟨⟨isConsonant_of_reduce _ (Or.inl r0), ?_, isConsonant_of_reduce _ (Or.inl r1)⟩,
    r0, r2, r1⟩
  rcases r2 with h | h
  · exact isConsonant_of_reduce _ (Or.inr (Or.inl h))
  · exact isConsonant_of_reduce _ (Or.inr (Or.inr h))

theorem cadence_consonant_witness :
    backtrackFillCtrptMelody (streamOf [0, 5, 1, 0, 1, 1, 0, 0]) 1 tenorC [41, 43, 42, 41] 5 []
        4 = some ⟨[41, 34, 37, 41], [41, 34, 37, 41], 8⟩ ∧
    ((isConsonant (getInterval (([41, 43, 42, 41] : List Int).getD 0 0)
        (([41, 34, 37, 41] : List Int).getD 0 0)) = true ∧
      isConsonant (getInterval (([41, 43, 42, 41] : List Int).getD ([41, 43, 42, 41].length - 2) 0)
        (([41, 34, 37, 41] : List Int).getD ([41, 43, 42, 41].length - 2) 0)) = true ∧
      isConsonant (getInterval (([41, 43, 42, 41] : List Int).getD ([41, 43, 42, 41].length - 1) 0)
        (([41, 34, 37, 41] : List Int).getD ([41, 43, 42, 41].length - 1) 0)) = true) ∧
    reduceInterval (getInterval (([41, 43, 42, 41] : List Int).getD 0 0)
      (([41, 34, 37, 41] : List Int).getD 0 0)) = 1 ∧
    (reduceInterval (getInterval (([41, 43, 42, 41] : List Int).getD ([41, 43, 42, 41].length - 2) 0)
        (([41, 34, 37, 41] : List Int).getD ([41, 43, 42, 41].length - 2) 0)) = 3 ∨
      reduceInterval (getInterval (([41, 43, 42, 41] : List Int).getD ([41, 43, 42, 41].length - 2) 0)
        (([41, 34, 37, 41] : List Int).getD ([41, 43, 42, 41].length - 2) 0)) = 6) ∧
    reduceInterval (getInterval (([41, 43, 42, 41] : List Int).getD ([41, 43, 42, 41].length - 1) 0)
      (([41, 34, 37, 41] : List Int).getD ([41, 43, 42, 41].length - 1) 0)) = 1) :=
  ⟨by decide, cadence_consonant (streamOf [0, 5, 1, 0, 1, 1, 0, 0]) 1 5 4 tenorC [41, 43, 42, 41]
    ⟨[41, 34, 37, 41], [41, 34, 37, 41], 8⟩ (by decide) (by decide) (by decide) (by decide)
    (by decide) (by decide) (by decide) (by decide) (by decide)⟩

theorem filter_nil_of_length (a : List Int) (f : Int → Bool) (h : a.length = 0) :
    a = a.filter f := by
  rw [List.length_eq_zero.mp h]
  rfl

theorem removeParallelFifths_filter (c k : List Int) :
    ∃ f : Int → Bool, ∀ a, removeParallelFifths a c k = a.filter f := by
  by_cases hg : reduceInterval (getInterval (back c) (k.getD (c.length - 1) 0)) = 5
  · refine ⟨fun x => !(reduceInterval (getInterval x (k.getD (c.length - 1) 0)) == 5), ?_⟩
    intro a
    unfold removeParallelFifths
    by_cases h0 : a.length = 0
    · rw [if_pos h0]
      exact filter_nil_of_length a _ h0
    · rw [if_neg h0, if_pos hg, eraseAll_filter_not]
  · refine ⟨fun _ => true, ?_⟩
    intro a
    unfold removeParallelFifths
    rw [if_neg hg]
    simp

theorem removeParallelEighths_filter (c k : List Int) :
    ∃ f : Int → Bool, ∀ a, removeParallelEighths a c k = a.filter f := by
  by_cases hg : reduceInterval (getInterval (back c) (k.getD (c.length - 1) 0)) = 1
  · refine ⟨fun x => !(reduceInterval (getInterval x (k.getD (c.length - 1) 0)) == 1), ?_⟩
    intro a
    unfold removeParallelEighths
    by_cases h0 : a.length = 0
    · rw [if_pos h0]
      exact filter_nil_of_length a _ h0
    · rw [if_neg h0, if_pos hg, eraseAll_filter_not]
  · refine ⟨fun _ => true, ?_⟩
    intro a
    unfold removeParallelEighths
    rw [if_neg hg]
    simp

theorem remove3xLeap_filter (c : List Int) :
    ∃ f : Int → Bool, ∀ a, remove3xLeap a c = a.filter f := by
  by_cases hg : 3 ≤ getInterval (back c) (endAt c 2) ∧ 3 ≤ getInterval (endAt c 2) (endAt c 3)
  · refine ⟨fun x => !(decide (3 ≤ getInterval x (back c))), ?_⟩
    intro a
    unfold remove3xLeap
    by_cases h0 : a.length = 0
    · rw [if_pos h0]
      exact filter_nil_of_length a _ h0
    · rw [if_neg h0, if_pos hg, eraseAll_filter_not]
  · refine ⟨fun _ => true, ?_⟩
    intro a
    unfold remove3xLeap
    rw [if_neg hg]
    simp

theorem removeOppositeLeaps_filter (c : List Int) :
    ∃ f : Int → Bool, ∀ a, removeOppositeLeaps a c = a.filter f := by
  by_cases hg : 3 ≤ getInterval (endAt c 1) (endAt c 2)
  · refine ⟨fun x => !(decide (3 ≤ getInterval x (back c)) &&
      (decide (0 < x - back c) != decide (0 < endAt c 1 - endAt c 2))), ?_⟩
    intro a
    unfold removeOppositeLeaps
    by_cases h0 : a.length = 0
    · rw [if_pos h0]
      exact filter_nil_of_length a _ h0
    · rw [if_neg h0, if_pos hg, eraseAll_filter_not]
  · refine ⟨fun _ => true, ?_⟩
    intro a
    unfold removeOppositeLeaps
    rw [if_neg hg]
    simp

theorem remove4xNote_filter (c : List Int) :
    ∃ f : Int → Bool, ∀ a, remove4xNote a c = a.filter f := by
  by_cases hg : endAt c 1 = endAt c 2 ∧ endAt c 1 = endAt c 3
  · refine ⟨fun x => x != back c, ?_⟩
    intro a
    unfold remove4xNote
    rw [if_pos hg]
    rfl
  · refine ⟨fun _ => true, ?_⟩
    intro a
    unfold remove4xNote
    rw [if_neg hg]
    simp

theorem remove4xIntervalOrNote_filter (c k : List Int) :
    ∃ f : Int → Bool, ∀ a, remove4xIntervalOrNote a c k = a.filter f := by
  obtain ⟨f1, hf1⟩ := remove4xNote_filter c
  by_cases hg : getInterval (back c) (k.getD (c.length - 1) 0) =
        getInterval (endAt c 2) (k.getD (c.length - 1 - 1) 0) ∧
      getInterval (back c) (k.getD (c.length - 1) 0) =
        getInterval (endAt c 3) (k.getD (c.length - 1 - 2) 0)
  · refine ⟨fun x => (!(getInterval x (k.getD (c.length - 1) 0) ==
        getInterval (back c) (k.getD (c.length - 1) 0))) && f1 x, ?_⟩
    intro a
    unfold remove4xIntervalOrNote
    by_cases h0 : a.length = 0
    · rw [if_pos h0]
      exact filter_nil_of_length a _ h0
    · rw [if_neg h0, if_pos hg, eraseAll_filter_not, hf1, List.filter_filter]
  · refine ⟨f1, ?_⟩
    intro a
    unfold remove4xIntervalOrNote
    by_cases h0 : a.length = 0
    · rw [if_pos h0]
      exact filter_nil_of_length a _ h0
    · rw [if_neg h0, if_neg hg, hf1]

/-- C25 (filter order does not matter): for a history of at least 3 notes and a cantus at
least as long, the five filters applied in the order of the code give the same candidates
as in the order of the specification, and any two of the five filters commute. -/
theorem filter_order_irrelevant (allowed ctrptNotes cantusNotes : List Int)
    (h3 : 3 ≤ ctrptNotes.length) (hlen : ctrptNotes.length ≤ cantusNotes.length) :
    filtersCodeOrder allowed ctrptNotes cantusNotes =
      filtersSpecOrder allowed ctrptNotes cantusNotes ∧
    removeParallelFifths (removeParallelEighths allowed ctrptNotes cantusNotes) ctrptNotes
        cantusNotes =
      removeParallelEighths (removeParallelFifths allowed ctrptNotes cantusNotes) ctrptNotes
        cantusNotes ∧
    removeParallelFifths (removeOppositeLeaps allowed ctrptNotes) ctrptNotes cantusNotes =
      removeOppositeLeaps (removeParallelFifths allowed ctrptNotes cantusNotes) ctrptNotes ∧
    removeParallelFifths (remove3xLeap allowed ctrptNotes) ctrptNotes cantusNotes =
      remove3xLeap (removeParallelFifths allowed ctrptNotes cantusNotes) ctrptNotes ∧
    removeParallelFifths (remove4xIntervalOrNote allowed ctrptNotes cantusNotes) ctrptNotes
        cantusNotes =
      remove4xIntervalOrNote (removeParallelFifths allowed ctrptNotes cantusNotes) ctrptNotes
        cantusNotes ∧
    removeParallelEighths (removeOppositeLeaps allowed ctrptNotes) ctrptNotes cantusNotes =
      removeOppositeLeaps (removeParallelEighths allowed ctrptNotes cantusNotes) ctrptNotes ∧
    removeParallelEighths (remove3xLeap allowed ctrptNotes) ctrptNotes cantusNotes =
      remove3xLeap (removeParallelEighths allowed ctrptNotes cantusNotes) ctrptNotes ∧
    removeParallelEighths (remove4xIntervalOrNote allowed ctrptNotes cantusNotes) ctrptNotes
        cantusNotes =
      remove4xIntervalOrNote (removeParallelEighths allowed ctrptNotes cantusNotes) ctrptNotes
        cantusNotes ∧
    removeOppositeLeaps (remove3xLeap allowed ctrptNotes) ctrptNotes =
      remove3xLeap (removeOppositeLeaps allowed ctrptNotes) ctrptNotes ∧
    removeOppositeLeaps (remove4xIntervalOrNote allowed ctrptNotes cantusNotes) ctrptNotes =
      remove4xIntervalOrNote (removeOppositeLeaps allowed ctrptNotes) ctrptNotes cantusNotes ∧
    remove3xLeap (remove4xIntervalOrNote allowed ctrptNotes cantusNotes) ctrptNotes =
      remove4xIntervalOrNote (remove3xLeap allowed ctrptNotes) ctrptNotes cantusNotes := by
  have _h3 := h3
  have _hlen := hlen
  obtain ⟨f5, h5⟩ := removeParallelFifths_filter ctrptNotes cantusNotes
  obtain ⟨f8, h8⟩ := removeParallelEighths_filter ctrptNotes cantusNotes
  obtain ⟨fo, ho⟩ := removeOppositeLeaps_filter ctrptNotes
  obtain ⟨fl, hl⟩ := remove3xLeap_filter ctrptNotes
  obtain ⟨f4, h4⟩ := remove4xIntervalOrNote_filter ctrptNotes cantusNotes
  unfold filtersCodeOrder filtersSpecOrder
  simp only [h5, h8, ho, hl, h4]
  refine ⟨?_, List.filter_comm _ _ _, List.filter_comm _ _ _, List.filter_comm _ _ _,
    List.filter_comm _ _ _, List.filter_comm _ _ _, List.filter_comm _ _ _,
    List.filter_comm _ _ _, List.filter_comm _ _ _, List.filter_comm _ _ _,
    List.filter_comm _ _ _⟩
  rw [List.filter_comm fl fo]

theorem filter_order_irrelevant_witness :
    filtersCodeOrder [31, 32, 33, 34, 35, 36, 37, 41] [31, 33, 35] [41, 42, 43, 44] =
      filtersSpecOrder [31, 32, 33, 34, 35, 36, 37, 41] [31, 33, 35] [41, 42, 43, 44] :=
  (filter_order_irrelevant [31, 32, 33, 34, 35, 36, 37, 41] [31, 33, 35] [41, 42, 43, 44]
    (by decide) (by decide)).1

theorem scaleStep_valid (a : Int) (ha : ValidPitch a) :
    scaleStep a = 7 * (a / 10) + a % 10 ∧ 1 ≤ a % 10 ∧ a % 10 ≤ 7 := by
  obtain ⟨h0, h1, h7⟩ := ha
  have e1 : a.tdiv 10 = a / 10 := Int.tdiv_eq_ediv h0 (by decide)
  have e2 : a.tmod 10 = a % 10 := Int.tmod_eq_emod h0 (by decide)
  unfold scaleStep
  rw [e1, e2]
  exact ⟨rfl, e2 ▸ h1, e2 ▸ h7⟩

/-- C26 (encoded values are ordered like pitch heights): for non-negative encoded pitches a
and b with degree digits in 1..7, a < b exactly when the scale-step count of a is below that
of b; hence `getInterval a b = 1` exactly when a = b, and the sign of a - b is the sign of
the scale-step difference. -/
theorem encoded_order (a b : Int) (ha : ValidPitch a) (hb : ValidPitch b) :
    (a < b ↔ 7 * (a.tdiv 10) + a.tmod 10 < 7 * (b.tdiv 10) + b.tmod 10) ∧
      (getInterval a b = 1 ↔ a = b) ∧
      (0 < a - b ↔ 0 < (7 * (a.tdiv 10) + a.tmod 10) - (7 * (b.tdiv 10) + b.tmod 10)) := by
  obtain ⟨sa, la, ua⟩ := scaleStep_valid a ha
  obtain ⟨sb, lb, ub⟩ := scaleStep_valid b hb
  unfold scaleStep at sa sb
  unfold getInterval
  rw [sa, sb]
  exact ⟨by omega, by omega, by omega⟩

theorem encoded_order_witness :
    ((37 : Int) < 41 ↔
        7 * ((37 : Int).tdiv 10) + (37 : Int).tmod 10 <
          7 * ((41 : Int).tdiv 10) + (41 : Int).tmod 10) ∧
      (getInterval 37 41 = 1 ↔ (37 : Int) = 41) ∧
      (0 < (37 : Int) - 41 ↔
        0 < (7 * ((37 : Int).tdiv 10) + (37 : Int).tmod 10) -
          (7 * ((41 : Int).tdiv 10) + (41 : Int).tmod 10)) :=
  encoded_order 37 41 (by decide) (by decide)

theorem altoFSharp_encoding :
    getOctaveIndicator keyFSharp = 5 ∧
      [['G', '#', '3'], ['A', '#', '3'], ['B', '3'], ['C', '#', '4'], ['D', '#', '4'],
        ['F', '4'], ['F', '#', '4'], ['G', '#', '4'], ['A', '#', '4'], ['B', '4'],
        ['C', '#', '5'], ['D', '#', '5'], ['F', '5']].map
          (fun note => notePos note keyFSharp (getOctaveIndicator keyFSharp)) = altoFSharp := by
  decide

end FirstSpeciesCtrpt
